import Mathlib

/-!
Verification of the GoEpubReader EPUB parsing core.

This file shallowly embeds the parts of the repository needed by the
claims under scrutiny: the Go `path` package helpers used for href
resolution (`path.Clean`, `path.Join`, `path.Dir`), the relevant string
helpers from Go's `strings` package, the XML/HTML generic node trees,
the OPF package-document model (metadata, manifest, spine), TOC
discovery and TOC parsing, the chapter loop of `ReadBook`, and the
Dublin Core metadata accessors of `Book`.

Strings are modelled by Lean `String`; Go byte-wise string comparison
coincides with Lean's code-point lexicographic order on UTF-8 encoded
strings.  Go maps whose construction sites assign by key are modelled
by association lists with first-match lookup.  Functions lifted from
Go's standard library carry a comment naming the Go function they
model; for `strings.ToLower` / `strings.EqualFold` the model covers the
ASCII range of Go's Unicode simple case mapping (all comparisons made
by the repository are against ASCII literals).
-/

/-- Model of the ASCII part of Go `unicode.IsSpace` (space, tab, newline,
vertical tab, form feed, carriage return). -/
def goIsSpace (c : Char) : Bool :=
  c = ' ' || c = '\t' || c = '\n' || c = '\x0b' || c = '\x0c' || c = '\r'

/-- Model of Go `strings.TrimSpace`: drop leading and trailing whitespace. -/
def goTrimSpace (s : String) : String :=
  String.mk (((s.toList.dropWhile goIsSpace).reverse.dropWhile goIsSpace).reverse)

/-- Model of Go `strings.ToLower` (ASCII range). -/
def goToLower (s : String) : String :=
  String.mk (s.toList.map Char.toLower)

/-- Model of Go `strings.EqualFold` (ASCII simple case folding). -/
def goEqualFold (s t : String) : Bool :=
  goToLower s = goToLower t

/-- Model of Go `strings.Contains s sub`: `sub` occurs as a substring of `s`. -/
def goContains (s sub : String) : Bool :=
  (List.range (s.toList.length + 1)).any
    (fun i => decide ((s.toList.drop i).take sub.toList.length = sub.toList))

/-- Split a character list at every character satisfying `p`, keeping empty
pieces (the behaviour of Go `strings.Split` generalised to a predicate). -/
def splitCharsOn (p : Char → Bool) : List Char → List (List Char)
  | [] => [[]]
  | c :: cs =>
    let rest := splitCharsOn p cs
    if p c then [] :: rest
    else
      match rest with
      | [] => [[c]]
      | s :: ss => (c :: s) :: ss

/-- Model of Go `strings.Fields`: split on whitespace runs, dropping empties. -/
def goFields (s : String) : List String :=
  ((splitCharsOn goIsSpace s.toList).map String.mk).filter (fun t => t ≠ "")

/-- Model of Go `strings.Join parts sep`. -/
def goJoinWith (sep : String) : List String → String
  | [] => ""
  | [s] => s
  | s :: rest => s ++ sep ++ goJoinWith sep rest

/-- Core segment loop of Go `path.Clean`: process slash-separated segments,
dropping empty and `.` segments and resolving `..` against the output stack
(`acc` holds the emitted segments in reverse).  In a rooted path a `..` at
the root is dropped; in a relative path it is kept. -/
def cleanSegs (rooted : Bool) : List String → List String → List String
  | acc, [] => acc.reverse
  | acc, s :: rest =>
    if s = "" || s = "." then cleanSegs rooted acc rest
    else if s = ".." then
      match acc with
      | [] => if rooted then cleanSegs rooted [] rest else cleanSegs rooted [".."] rest
      | a :: acc2 =>
        if a = ".." then cleanSegs rooted (".." :: a :: acc2) rest
        else cleanSegs rooted acc2 rest
    else cleanSegs rooted (s :: acc) rest

/-- Model of Go `path.Clean`: lexical simplification of a slash-separated
path (collapse multiple slashes, drop `.`, resolve `..`, empty result
becomes `.`). -/
def pathClean (p : String) : String :=
  if p = "" then "."
  else
    let chars := p.toList
    let rooted := chars.head? = some '/'
    let segs := cleanSegs rooted [] ((splitCharsOn (fun c => c = '/') chars).map String.mk)
    if segs = [] then (if rooted then "/" else ".")
    else (if rooted then "/" else "") ++ goJoinWith "/" segs

/-- Model of Go `path.Join` restricted to two elements: the first non-empty
element onward is joined with `/` and cleaned; all-empty input gives `""`. -/
def pathJoin (a b : String) : String :=
  if a ≠ "" then pathClean (a ++ "/" ++ b)
  else if b ≠ "" then pathClean b
  else ""

/-- Model of Go `path.Dir`: the cleaned prefix of the path up to (and
including) the final slash; `.` when the path holds no slash. -/
def pathDir (p : String) : String :=
  pathClean (String.mk ((p.toList.reverse.dropWhile (fun c => c ≠ '/')).reverse))

/-- Embeds `resolveRelative` (src/epub/reader.go): resolve a manifest href
against a base directory. -/
def resolveRelative (baseDir href : String) : String :=
  if baseDir = "" then pathClean href
  else pathClean (pathJoin baseDir href)

/-- Go byte-wise string comparison `s < t`, as a recursion over the
character lists (UTF-8 byte order coincides with code-point order). -/
def charListLt : List Char → List Char → Bool
  | [], [] => false
  | [], _ :: _ => true
  | _ :: _, [] => false
  | a :: as, b :: bs => if a < b then true else if b < a then false else charListLt as bs

/-- Model of Go string comparison `s < t`. -/
def goLess (s t : String) : Bool := charListLt s.toList t.toList

/-- Model of Go `sort.SearchStrings`: the smallest index whose element is
`≥ x` (Go performs a binary search; on a sorted slice it returns exactly
this first index, which the linear search computes). -/
def goSearchStrings (l : List String) (x : String) : Nat :=
  l.findIdx (fun s => !goLess s x)

/-- Embeds `in` (src/epub/reader.go): membership test in a sorted slice via
`sort.SearchStrings` followed by an equality check. -/
def goIn (sortedValues : List String) (target : String) : Bool :=
  let index := goSearchStrings sortedValues target
  decide (index < sortedValues.length) && decide (sortedValues.getD index "" = target)

/-- Embeds `dublinCoreElements` (src/epub/reader.go): the fifteen canonical
Dublin Core element names.  The source declares them in canonical order and
sorts the slice in `init`; this is the sorted value the program uses. -/
def dublinCoreElements : List String :=
  ["contributor", "coverage", "creator", "date", "description", "format",
   "identifier", "language", "publisher", "relation", "rights", "source",
   "subject", "title", "type"]

theorem goLess_irrefl (s : String) : goLess s s = false := by
  show charListLt s.toList s.toList = false
  induction s.toList with
  | nil => rfl
  | cons c cs ih => simp [charListLt, ih]

theorem charListLt_antisymm :
    ∀ a b : List Char, charListLt a b = false → charListLt b a = false → a = b := by
  intro a
  induction a with
  | nil =>
    intro b h1 _
    cases b with
    | nil => rfl
    | cons c cs => simp [charListLt] at h1
  | cons c cs ih =>
    intro b h1 h2
    cases b with
    | nil => simp [charListLt] at h2
    | cons d ds =>
      by_cases hcd : c < d
      · simp [charListLt, hcd] at h1
      · by_cases hdc : d < c
        · simp [charListLt, hdc] at h2
        · have hce : c = d := le_antisymm (not_lt.mp hdc) (not_lt.mp hcd)
          subst hce
          simp [charListLt, lt_irrefl] at h1 h2
          simp [ih ds h1 h2]

theorem goLess_antisymm {s t : String} (h1 : goLess s t = false)
    (h2 : goLess t s = false) : s = t := by
  have := charListLt_antisymm s.toList t.toList h1 h2
  cases s; cases t
  simpa [String.toList] using congrArg String.mk this

/-- On a sorted slice, `goIn` decides membership: this is the contract of
`in` together with the `sort.Strings` call in `init`. -/
theorem goIn_eq_true_iff_mem (x : String) :
    ∀ l : List String, List.Pairwise (fun p q => goLess q p = false) l →
      (goIn l x = true ↔ x ∈ l) := by
  intro l
  induction l with
  | nil => intro _; simp [goIn, goSearchStrings]
  | cons a t ih =>
    intro hp
    rw [List.pairwise_cons] at hp
    obtain ⟨ha, ht⟩ := hp
    by_cases hax : goLess a x = true
    · have hne : a ≠ x := by
        intro he; subst he; rw [goLess_irrefl] at hax; exact Bool.false_ne_true hax
      have hsh : goIn (a :: t) x = goIn t x := by
        simp only [goIn, goSearchStrings, List.findIdx_cons, hax]
        simp [List.getD_cons_succ]
      rw [hsh, ih ht]
      constructor
      · intro hm; exact List.mem_cons_of_mem a hm
      · intro hm
        rcases List.mem_cons.mp hm with he | hm2
        · exact absurd he.symm hne
        · exact hm2
    · have hax' : goLess a x = false := by
        cases h : goLess a x
        · rfl
        · exact absurd h hax
      have hd : goIn (a :: t) x = decide (a = x) := by
        simp [goIn, goSearchStrings, List.findIdx_cons, hax']
      rw [hd]
      constructor
      · intro h
        have : a = x := of_decide_eq_true h
        simp [this]
      · intro hm
        rcases List.mem_cons.mp hm with he | hm2
        · exact decide_eq_true he.symm
        · have hxa : goLess x a = false := ha x hm2
          have : a = x := goLess_antisymm hax' hxa
          exact decide_eq_true this

theorem dublinCore_pairwise :
    List.Pairwise (fun p q => goLess q p = false) dublinCoreElements := by decide

/-- Membership in the Dublin Core set as computed by the program's `in`. -/
theorem goIn_dublinCore (x : String) :
    goIn dublinCoreElements x = true ↔ x ∈ dublinCoreElements :=
  goIn_eq_true_iff_mem x dublinCoreElements dublinCore_pairwise

example : pathClean "" = "." := by decide
example : pathClean "a//b/./c/.." = "a/b" := by decide
example : pathClean "a/../../b" = "../b" := by decide
example : pathClean "/../a/" = "/a" := by decide
example : pathDir "OEBPS/content.opf" = "OEBPS" := by decide
example : pathDir "content.opf" = "." := by decide
example : pathJoin "OEBPS" "nav.xhtml" = "OEBPS/nav.xhtml" := by decide
example : resolveRelative "OEBPS" "../x/y.html" = "x/y.html" := by decide
example : resolveRelative "" "ch1.xhtml" = "ch1.xhtml" := by decide

/-- Embeds `xml.Name`: a namespace-qualified XML name. -/
structure XmlName where
  space : String
  localName : String
deriving DecidableEq, Repr

/-- Embeds `xml.Attr`: a named XML attribute. -/
structure XmlAttr where
  name : XmlName
  value : String
deriving DecidableEq, Repr

/-- Embeds `XmlNode` (src/epub/xml.go): name, attributes, own character
data, and the ordered child elements. -/
inductive XmlNode where
  | mk (xmlName : XmlName) (attrs : List XmlAttr) (content : String) (xmlNodes : List XmlNode)

def XmlNode.xmlName : XmlNode → XmlName
  | .mk n _ _ _ => n

def XmlNode.attrs : XmlNode → List XmlAttr
  | .mk _ a _ _ => a

def XmlNode.content : XmlNode → String
  | .mk _ _ c _ => c

def XmlNode.xmlNodes : XmlNode → List XmlNode
  | .mk _ _ _ ns => ns

mutual

/-- Embeds `XmlNode.NodeText` (src/epub/xml.go): the trimmed own content
followed by the non-empty child texts, joined by single spaces. -/
def XmlNode.nodeText : XmlNode → String
  | .mk _ _ content children =>
    let t := goTrimSpace content
    goJoinWith " " ((if t = "" then [] else [t]) ++ nodeTextChildren children)

/-- Child traversal of `XmlNode.NodeText`: collect the non-empty texts. -/
def nodeTextChildren : List XmlNode → List String
  | [] => []
  | c :: cs =>
    let t := XmlNode.nodeText c
    if t = "" then nodeTextChildren cs else t :: nodeTextChildren cs

end

mutual

/-- Embeds `XmlNode.FindNode` (src/epub/xml.go): depth-first pre-order
search by case-insensitive local name, starting at the node itself. -/
def XmlNode.findNode (name : String) : XmlNode → Option XmlNode
  | .mk nm attrs content children =>
    if goEqualFold nm.localName name then some (.mk nm attrs content children)
    else findNodeChildren name children

/-- Child traversal of `XmlNode.FindNode`: first hit among the children. -/
def findNodeChildren (name : String) : List XmlNode → Option XmlNode
  | [] => none
  | c :: cs =>
    match XmlNode.findNode name c with
    | some r => some r
    | none => findNodeChildren name cs

end

/-- Embeds `NodeType` (src/epub/html.go). -/
inductive NodeType where
  | element
  | text
deriving DecidableEq, Repr

/-- Embeds `HtmlNode` (src/epub/html.go): the lenient HTML tree. -/
inductive HtmlNode where
  | mk (nodeType : NodeType) (name : String) (attrs : List (String × String))
      (content : String) (children : List HtmlNode)

def HtmlNode.nodeType : HtmlNode → NodeType
  | .mk t _ _ _ _ => t

def HtmlNode.name : HtmlNode → String
  | .mk _ n _ _ _ => n

def HtmlNode.children : HtmlNode → List HtmlNode
  | .mk _ _ _ _ cs => cs

mutual

/-- Embeds `findElement` (src/epub/chapter.go): depth-first pre-order
search for an element node with exactly the given name, the node itself
included. -/
def findElement (name : String) : HtmlNode → Option HtmlNode
  | .mk ty nm attrs content children =>
    if ty = NodeType.element ∧ nm = name then some (.mk ty nm attrs content children)
    else findElementChildren name children

/-- Child traversal of `findElement`: first hit among the children. -/
def findElementChildren (name : String) : List HtmlNode → Option HtmlNode
  | [] => none
  | c :: cs =>
    match findElement name c with
    | some r => some r
    | none => findElementChildren name cs

end

/-- Embeds `HtmlNode.FindNode` (src/epub/html.go): self-check, then the
children through `findElement`. -/
def HtmlNode.findNode (name : String) (hn : HtmlNode) : Option HtmlNode :=
  if hn.nodeType = NodeType.element ∧ hn.name = name then some hn
  else findElementChildren name hn.children

/-- Lookup in a Go `map[string]string` value, modelled as an association
list with unique keys. -/
def lookupAttr (attrs : List (String × String)) (k : String) : Option String :=
  (attrs.find? (fun p => decide (p.1 = k))).map Prod.snd

/-- Go map indexing without the `ok` flag: a missing key reads as `""`. -/
def attrD (attrs : List (String × String)) (k : String) : String :=
  (lookupAttr attrs k).getD ""

/-- Embeds `EmptyXmlNode` (src/epub/xml.go): an element reduced to its
name and attribute map. -/
structure EmptyXmlNode where
  name : String
  attrs : List (String × String)
deriving DecidableEq, Repr

/-- Embeds `Manifest` (src/epub/reader.go). -/
structure Manifest where
  items : List EmptyXmlNode
deriving DecidableEq, Repr

/-- Embeds `Spine` (src/epub/reader.go). -/
structure Spine where
  itemrefs : List EmptyXmlNode
  attrs : List (String × String)
deriving DecidableEq, Repr

/-- Embeds `MetaEntry` (src/epub/reader.go). -/
structure MetaEntry where
  value : String
  attrs : List (String × String)
deriving DecidableEq, Repr

/-- Embeds `Metadata` (src/epub/reader.go): namespace → tag → entries.
The two map levels are modelled as association lists in iteration order;
a nil `Data` map is the empty list. -/
structure Metadata where
  data : List (String × List (String × List MetaEntry))
deriving DecidableEq, Repr

/-- Embeds `Opf` (src/epub/reader.go); the Go pointer fields become
`Option`s (`none` is a nil pointer). -/
structure Opf where
  metadata : Option Metadata
  manifest : Option Manifest
  spine : Option Spine
deriving DecidableEq, Repr

/-- Embeds `Container` (src/epub/container.go). -/
structure Container where
  rootfiles : List EmptyXmlNode
deriving DecidableEq, Repr

/-- Embeds `TOC` (src/epub/toc.go): one table-of-contents node. -/
inductive TOC where
  | mk (Title : String) (Href : String) (Children : List TOC)

def TOC.Title : TOC → String
  | .mk t _ _ => t

def TOC.Href : TOC → String
  | .mk _ h _ => h

def TOC.Children : TOC → List TOC
  | .mk _ _ cs => cs

/-- Embeds `Chapter` (src/epub/chapter.go). -/
structure Chapter where
  id : String
  path : String
  title : String
  paragraphs : List String
  images : List String
deriving DecidableEq, Repr

/-- Embeds `Book` (src/book.go); pointer fields become `Option`s. -/
structure Book where
  container : Option Container
  opf : Option Opf
  toc : Option TOC
  chapters : List Chapter

/-- The empty `map[string][]string`: every key reads as the nil slice. -/
def emptyStrMap : String → List String := fun _ => []

/-- One `metadata[key] = append(metadata[key], val)` step on a
`map[string][]string`. -/
def strMapAdd (m : String → List String) (k v : String) : String → List String :=
  fun t => if t = k then m t ++ [v] else m t

/-- Entry loop of `Metadata.Normalize` (src/epub/reader.go) for one tag:
append each trimmed non-empty value under the tag. -/
def normalizeAddEntries (tag : String) : List MetaEntry → (String → List String) → (String → List String)
  | [], m => m
  | e :: es, m =>
    let value := goTrimSpace e.value
    normalizeAddEntries tag es (if value ≠ "" then strMapAdd m tag value else m)

/-- Tag loop of `Metadata.Normalize`: only Dublin Core tags contribute. -/
def normalizeAddTags : List (String × List MetaEntry) → (String → List String) → (String → List String)
  | [], m => m
  | (tag, entries) :: rest, m =>
    normalizeAddTags rest
      (if goIn dublinCoreElements tag then normalizeAddEntries tag entries m else m)

/-- Namespace loop of `Metadata.Normalize`. -/
def normalizeAddNS : List (String × List (String × List MetaEntry)) → (String → List String) → (String → List String)
  | [], m => m
  | (_, tags) :: rest, m => normalizeAddNS rest (normalizeAddTags tags m)

/-- Embeds `Metadata.Normalize` (src/epub/reader.go): the Dublin-Core-only
flattened metadata view. -/
def metadataNormalize (md : Option Metadata) : String → List String :=
  match md with
  | none => emptyStrMap
  | some m => normalizeAddNS m.data emptyStrMap

/-- Displayed value rule of `Metadata.GetAll` (src/epub/reader.go): the
entry text, else the `content` attribute, else empty (to be skipped). -/
def getAllValue (e : MetaEntry) : String :=
  if e.value = "" then attrD e.attrs "content" else e.value

/-- Display key rule of `Metadata.GetAll`: `meta` elements are keyed by
their `name`, else `property`, attribute. -/
def getAllKey (tag : String) (e : MetaEntry) : String :=
  if tag = "meta" then
    if attrD e.attrs "name" ≠ "" then "meta:" ++ attrD e.attrs "name"
    else if attrD e.attrs "property" ≠ "" then "meta:" ++ attrD e.attrs "property"
    else tag
  else tag

/-- Entry loop of `Metadata.GetAll` for one tag. -/
def getAllAddEntries (tag : String) : List MetaEntry → (String → List String) → (String → List String)
  | [], m => m
  | e :: es, m =>
    getAllAddEntries tag es
      (if getAllValue e = "" then m else strMapAdd m (getAllKey tag e) (getAllValue e))

/-- Tag loop of `Metadata.GetAll`. -/
def getAllAddTags : List (String × List MetaEntry) → (String → List String) → (String → List String)
  | [], m => m
  | (tag, entries) :: rest, m => getAllAddTags rest (getAllAddEntries tag entries m)

/-- Namespace loop of `Metadata.GetAll`. -/
def getAllAddNS : List (String × List (String × List MetaEntry)) → (String → List String) → (String → List String)
  | [], m => m
  | (_, tags) :: rest, m => getAllAddNS rest (getAllAddTags tags m)

/-- Embeds `Metadata.GetAll` (src/epub/reader.go): the flattened
"all metadata" view, extension `meta` entries included. -/
def metadataGetAll (md : Option Metadata) : String → List String :=
  match md with
  | none => emptyStrMap
  | some m => getAllAddNS m.data emptyStrMap

/-- Embeds `Metadata.Get` (src/epub/reader.go): all normalized values of a
Dublin Core key (the key is lowercased first; non-Dublin-Core keys give
the nil slice). -/
def metadataGet (md : Option Metadata) (key : String) : List String :=
  match md with
  | none => []
  | some _ =>
    let key := goToLower key
    if goIn dublinCoreElements key then metadataNormalize md key else []

/-- The message of the wrapped `ErrMetadataUndefined` failure
(src/book.go): `fmt.Errorf("%w: %s", ErrMetadataUndefined, key)`. -/
def metadataUndefinedMsg (key : String) : String := "metadata not defined: " ++ key

/-- Embeds `Book.MetadataValues` (src/book.go): all values of a Dublin
Core key, or the `ErrMetadataUndefined` failure. -/
def Book.metadataValues (b : Option Book) (key : String) : Except String (List String) :=
  let key := goToLower (goTrimSpace key)
  if key = "" then .error "metadata key is empty"
  else
    match b with
    | none => .error (metadataUndefinedMsg key)
    | some bk =>
      match bk.opf with
      | none => .error (metadataUndefinedMsg key)
      | some opf =>
        match opf.metadata with
        | none => .error (metadataUndefinedMsg key)
        | some md =>
          let values := metadataGet (some md) key
          if values = [] then .error (metadataUndefinedMsg key) else .ok values

/-- Embeds `Book.MetadataValue` (src/book.go): the first value of the key
(`values[0]`, defined because an empty list already errored). -/
def Book.metadataValue (b : Option Book) (key : String) : Except String String :=
  match Book.metadataValues b key with
  | .error e => .error e
  | .ok values => .ok (values.headD "")

/-- Embeds `Book.Title` (src/book.go). -/
def Book.title (b : Option Book) : Except String String := Book.metadataValue b "title"

/-- Embeds `Book.Creator` (src/book.go). -/
def Book.creator (b : Option Book) : Except String String := Book.metadataValue b "creator"

/-- Embeds `Book.Subject` (src/book.go). -/
def Book.subject (b : Option Book) : Except String String := Book.metadataValue b "subject"

/-- Embeds `Book.Description` (src/book.go). -/
def Book.description (b : Option Book) : Except String String := Book.metadataValue b "description"

/-- Embeds `Book.Publisher` (src/book.go). -/
def Book.publisher (b : Option Book) : Except String String := Book.metadataValue b "publisher"

/-- Embeds `Book.Contributor` (src/book.go). -/
def Book.contributor (b : Option Book) : Except String String := Book.metadataValue b "contributor"

/-- Embeds `Book.Date` (src/book.go). -/
def Book.date (b : Option Book) : Except String String := Book.metadataValue b "date"

/-- Embeds `Book.Type` (src/book.go). -/
def Book.typeField (b : Option Book) : Except String String := Book.metadataValue b "type"

/-- Embeds `Book.Format` (src/book.go). -/
def Book.format (b : Option Book) : Except String String := Book.metadataValue b "format"

/-- Embeds `Book.Identifier` (src/book.go). -/
def Book.identifier (b : Option Book) : Except String String := Book.metadataValue b "identifier"

/-- Embeds `Book.Language` (src/book.go). -/
def Book.language (b : Option Book) : Except String String := Book.metadataValue b "language"

/-- Embeds `Book.Source` (src/book.go). -/
def Book.source (b : Option Book) : Except String String := Book.metadataValue b "source"

/-- Embeds `Book.Relation` (src/book.go). -/
def Book.relation (b : Option Book) : Except String String := Book.metadataValue b "relation"

/-- Embeds `Book.Coverage` (src/book.go). -/
def Book.coverage (b : Option Book) : Except String String := Book.metadataValue b "coverage"

/-- Embeds `Book.Rights` (src/book.go). -/
def Book.rights (b : Option Book) : Except String String := Book.metadataValue b "rights"

/-- Embeds the `TOCTypeEPUB2` constant (src/epub/reader.go). -/
def TOCTypeEPUB2 : String := "EPUB2"

/-- Embeds the `TOCTypeEPUB3` constant (src/epub/reader.go). -/
def TOCTypeEPUB3 : String := "EPUB3"

/-- Embeds the `TOCTypeUnknown` constant (src/epub/reader.go). -/
def TOCTypeUnknown : String := "UNKNOWN"

/-- The EPUB3 test of `FindTOCFile` (src/epub/reader.go): the item has a
`properties` attribute one of whose whitespace-separated tokens equals
"nav" case-insensitively. -/
def itemHasNavProp (item : EmptyXmlNode) : Bool :=
  match lookupAttr item.attrs "properties" with
  | some props => (goFields props).any (fun p => goEqualFold p "nav")
  | none => false

/-- The NCX fallback test of `FindTOCFile`: the media-type equals the NCX
media type case-insensitively. -/
def itemIsNCX (item : EmptyXmlNode) : Bool :=
  goEqualFold (attrD item.attrs "media-type") "application/x-dtbncx+xml"

/-- The base directory computed by `FindTOCFile` and `HrefLookup`:
`path.Dir` of the OPF path, with `.` replaced by the empty string. -/
def opfBaseDir (opfPath : String) : String :=
  let d := pathDir opfPath
  if d = "." then "" else d

/-- The manifest used by `FindTOCFile` after its nil-replacement. -/
def manifestItems (opf : Opf) : List EmptyXmlNode :=
  (opf.manifest.getD ⟨[]⟩).items

/-- The spine attributes used by `FindTOCFile` after its nil-replacement. -/
def spineTocAttr (opf : Opf) : Option String :=
  lookupAttr (opf.spine.getD ⟨[], []⟩).attrs "toc"

/-- The media-type fallback loop of `FindTOCFile` (src/epub/reader.go). -/
def findNCXFallback (baseDir : String) (items : List EmptyXmlNode) : String × String :=
  match items.find? itemIsNCX with
  | some item => (TOCTypeEPUB2, resolveRelative baseDir (attrD item.attrs "href"))
  | none => (TOCTypeUnknown, "")

/-- Embeds `Opf.FindTOCFile` (src/epub/reader.go): locate the TOC resource
and its format tag, preferring the EPUB3 `nav` property, then the EPUB2
spine `toc` reference, then the NCX media type. -/
def Opf.findTOCFile (opf : Opf) (opfPath : String) : String × String :=
  let baseDir := opfBaseDir opfPath
  let items := manifestItems opf
  match items.find? itemHasNavProp with
  | some item => (TOCTypeEPUB3, resolveRelative baseDir (attrD item.attrs "href"))
  | none =>
    match spineTocAttr opf with
    | some id =>
      match items.find? (fun item => decide (attrD item.attrs "id" = id)) with
      | some item => (TOCTypeEPUB2, resolveRelative baseDir (attrD item.attrs "href"))
      | none => findNCXFallback baseDir items
    | none => findNCXFallback baseDir items

/-- Itemref loop of `Spine.ExtractChapterIDs` (src/epub/reader.go). -/
def extractIDsLoop : List EmptyXmlNode → List String
  | [] => []
  | item :: rest =>
    let id := goTrimSpace (attrD item.attrs "idref")
    if id = "" then extractIDsLoop rest
    else
      match lookupAttr item.attrs "linear" with
      | some linear =>
        if goEqualFold linear "no" then extractIDsLoop rest else id :: extractIDsLoop rest
      | none => id :: extractIDsLoop rest

/-- Embeds `Spine.ExtractChapterIDs` (src/epub/reader.go): ordered chapter
ids of the spine, skipping blank idrefs and non-linear itemrefs. -/
def Spine.extractChapterIDs (spine : Option Spine) : List String :=
  match spine with
  | none => []
  | some sp => extractIDsLoop sp.itemrefs

/-- One itemref's contribution to `ExtractChapterIDs`: the trimmed idref,
unless it is blank or the itemref is marked `linear="no"`. -/
def spineKeep (item : EmptyXmlNode) : Option String :=
  let id := goTrimSpace (attrD item.attrs "idref")
  if id = "" then none
  else
    match lookupAttr item.attrs "linear" with
    | some linear => if goEqualFold linear "no" then none else some id
    | none => some id

/-- The `<nav>` test of `parseNavXML` (src/epub/toc.go): a `nav` element
whose `type` or `epub:type` attribute value contains "toc". -/
def isTocNav : XmlNode → Bool
  | .mk nm attrs _ _ =>
    nm.localName = "nav" && attrs.any (fun a =>
      (a.name.localName = "type" && goContains a.value "toc") ||
      (a.name.localName = "epub:type" && goContains a.value "toc"))

mutual

/-- Embeds `findNav` (src/epub/toc.go): depth-first pre-order search for
the toc `<nav>` element. -/
def findNav : XmlNode → Option XmlNode
  | .mk nm attrs content children =>
    if isTocNav (.mk nm attrs content children) then some (.mk nm attrs content children)
    else findNavList children

/-- Child traversal of `findNav`. -/
def findNavList : List XmlNode → Option XmlNode
  | [] => none
  | c :: cs =>
    match findNav c with
    | some r => some r
    | none => findNavList cs

end

/-- The first `href` attribute of an `<a>` element, as scanned (with
`break`) by `parseNavXML`'s `li` loop. -/
def firstHrefAttr (attrs : List XmlAttr) : Option String :=
  (attrs.find? (fun a => decide (a.name.localName = "href"))).map XmlAttr.value

mutual

/-- Embeds `parseList` (src/epub/toc.go): parse the `li` children of an
`ol` element into TOC entries. -/
def parseList (basePath : String) : XmlNode → List TOC
  | .mk _ _ _ children => parseItems basePath children

/-- The `li` loop of `parseList`: non-`li` children are skipped and
entries lacking a title are dropped. -/
def parseItems (basePath : String) : List XmlNode → List TOC
  | [] => []
  | li :: rest =>
    match li with
    | .mk nm _ _ liChildren =>
      if nm.localName = "li" then
        match parseLiChildren basePath liChildren (TOC.mk "" "" []) with
        | .mk t h cs => (if t ≠ "" then [TOC.mk t h cs] else []) ++ parseItems basePath rest
      else parseItems basePath rest

/-- The child loop inside one `li`: an `a` child sets the title (trimmed
text) and, when an `href` attribute exists, the href resolved against
`basePath`; an `ol` child sets the children. -/
def parseLiChildren (basePath : String) : List XmlNode → TOC → TOC
  | [], e => e
  | c :: cs, e =>
    match c with
    | .mk nm cattrs ccontent cchildren =>
      let e2 :=
        if nm.localName = "a" then
          match e with
          | .mk _ h ech =>
            TOC.mk (goTrimSpace (XmlNode.nodeText (.mk nm cattrs ccontent cchildren)))
              (match firstHrefAttr cattrs with
               | some v => resolveRelative basePath v
               | none => h) ech
        else if nm.localName = "ol" then
          match e with
          | .mk t h _ => TOC.mk t h (parseList basePath (.mk nm cattrs ccontent cchildren))
        else e
      parseLiChildren basePath cs e2

end

/-- Embeds `parseNavXML` (src/epub/toc.go) after the XML decode: find the
toc `<nav>`, its first `<ol>`, and parse the list. -/
def parseNavTree (root : XmlNode) (basePath : String) : Except String (List TOC) :=
  match findNav root with
  | none => Except.error "parseNavXML: toc <nav> not found"
  | some tocNav =>
    match XmlNode.findNode "ol" tocNav with
    | none => Except.error "parseNavXML: <ol> not found in toc nav"
    | some ol => Except.ok (parseList basePath ol)

/-- The attribute loop of `parseNCX`'s `content` case: each `src`
attribute overwrites the href with its trimmed value resolved against
`basePath`. -/
def contentSrcLoop (basePath : String) : List XmlAttr → String → String
  | [], href => href
  | a :: as, href =>
    contentSrcLoop basePath as
      (if a.name.localName = "src" then resolveRelative basePath (goTrimSpace a.value) else href)

/-- The child loop of one `navPoint` in `parseNCX`: `navLabel` sets the
label from the trimmed subtree text, `content` sets the href. -/
def navPointInfoLoop (basePath : String) : List XmlNode → String × String → String × String
  | [], p => p
  | c :: cs, (label, href) =>
    match c with
    | .mk nm cattrs _ _ =>
      let p2 :=
        if nm.localName = "navLabel" then (goTrimSpace (XmlNode.nodeText c), href)
        else if nm.localName = "content" then (label, contentSrcLoop basePath cattrs href)
        else (label, href)
      navPointInfoLoop basePath cs p2

/-- Embeds `parseNavPoints` (src/epub/toc.go): parse a list of `navPoint`
elements; entries without a label are dropped (their children with them),
nested `navPoint`s recurse. -/
def parseNavPoints (basePath : String) : List XmlNode → List TOC
  | [] => []
  | n :: rest =>
    match n with
    | .mk nm _ _ nChildren =>
      if nm.localName = "navPoint" then
        let info := navPointInfoLoop basePath nChildren ("", "")
        let children := parseNavPoints basePath nChildren
        (if info.1 ≠ "" then [TOC.mk info.1 (pathClean info.2) children] else []) ++
          parseNavPoints basePath rest
      else parseNavPoints basePath rest

/-- Embeds `parseNCX` (src/epub/toc.go) after the XML decode: locate
`navMap` and parse its `navPoint` children. -/
def parseNCXTree (root : XmlNode) (basePath : String) : Except String (List TOC) :=
  match XmlNode.findNode "navMap" root with
  | none => Except.error "parseNCX: no navMap found"
  | some navMap => Except.ok (parseNavPoints basePath navMap.xmlNodes)

/-- Embeds `ParseTOC` (src/epub/toc.go).  The zip archive is abstracted to
the list of its entry names plus the decoded XML tree `tree` of the entry
`path.Join opfDir tocFile` (reading and decoding that entry is external
IO); the dispatch, the lookup path, and the `opfDir` base-path argument
handed to both format parsers are exactly the source's. -/
def ParseTOCModel (tocType tocFile opfDir : String) (files : List String)
    (tree : XmlNode) : Except String (List TOC) :=
  if files.contains (pathJoin opfDir tocFile) then
    if tocType = TOCTypeEPUB3 then parseNavTree tree opfDir
    else if tocType = TOCTypeEPUB2 then parseNCXTree tree opfDir
    else Except.error "unknown toc type"
  else Except.error ("toc file not found: " ++ tocFile)

mutual

/-- Embeds `TOC.Flatten` (src/epub/toc.go): `Walk` visits the node itself
and then each child's subtree in order, and the callback appends every
visited entry, so `Flatten` is the depth-first pre-order listing rooted at
the receiver. -/
def TOC.flatten : TOC → List TOC
  | .mk t h cs => TOC.mk t h cs :: flattenList cs

/-- Pre-order listing of a forest of TOC nodes. -/
def flattenList : List TOC → List TOC
  | [] => []
  | c :: cs => TOC.flatten c ++ flattenList cs

end

/-- Embeds `Book.FlattenTOC` (src/book.go): flatten the TOC tree and drop
the leading entry (the synthetic container root). -/
def Book.flattenTOC (b : Option Book) : List TOC :=
  match b with
  | none => []
  | some bk =>
    match bk.toc with
    | none => []
    | some t =>
      let entries := TOC.flatten t
      if entries.length = 0 then [] else entries.drop 1

/-- Embeds the chapter loop of `ReadBook` (src/book.go): iterate the
spine-ordered chapter ids; an id missing from the href lookup, or whose
cleaned href names no archive entry, is skipped; otherwise the chapter is
parsed (`parseChapter` abstracts `ParseChapter` on the named entry,
including its IO) and a parse failure aborts the loop with the wrapped
error. -/
def chaptersLoop (lookup : String → Option String) (files : List String)
    (parseChapter : String → String → Except String Chapter) :
    List String → Except String (List Chapter)
  | [] => .ok []
  | id :: rest =>
    match lookup id with
    | none => chaptersLoop lookup files parseChapter rest
    | some href0 =>
      let href := pathClean href0
      if files.contains href then
        match parseChapter id href with
        | .error e => .error ("parse chapter " ++ id ++ ": " ++ e)
        | .ok ch =>
          match chaptersLoop lookup files parseChapter rest with
          | .error e => .error e
          | .ok chs => .ok (ch :: chs)
      else chaptersLoop lookup files parseChapter rest

/-- Embeds `charsetReader` (src/epub/reader.go), the `CharsetReader`
hook that `xmlNewDecoder` installs.  In the source only the package
document is decoded through `xmlNewDecoder` (`ParseOpf` /
`xmlUnmarshal`); `ParseXML` (src/epub/xml.go), which decodes the
container descriptor, the NCX and the Navigation Document, constructs a
plain `xml.NewDecoder` and installs no hook.  Acceptance returns the
input reader unchanged, modelled as `ok`. -/
def charsetReader (charset : String) : Except String Unit :=
  if goToLower charset = "" || goToLower charset = "utf-8" || goToLower charset = "us-ascii" then
    Except.ok ()
  else Except.error ("unsupported charset: " ++ charset)

/-- Modelled from the Go standard library `encoding/xml` decoder: the
gate applied to the encoding declared in `<?xml ... encoding="E"?>`.  A
missing declaration or one of the two standard UTF-8 spellings is
handled by the decoder itself; any other declared encoding requires the
`CharsetReader` hook — with a nil hook the decode fails with the
stdlib's nil-CharsetReader error, otherwise the hook decides, a hook
failure failing the decode (the stdlib prefixes the hook's message; the
prefix does not affect acceptance and is not modelled). -/
def xmlDeclaredEncodingGate (hook : Option (String → Except String Unit))
    (enc : String) : Except String Unit :=
  if enc = "" || enc = "utf-8" || enc = "UTF-8" then Except.ok ()
  else
    match hook with
    | none =>
      Except.error ("xml: encoding \"" ++ enc ++
        "\" declared but Decoder.CharsetReader is nil")
    | some h => h enc

/-- The declared-encoding behaviour of `ParseXML` (src/epub/xml.go):
`xml.NewDecoder` with no `CharsetReader` — the decode path of the
container descriptor, the NCX and the Navigation Document. -/
def parseXMLEncodingGate (enc : String) : Except String Unit :=
  xmlDeclaredEncodingGate none enc

/-- The declared-encoding behaviour of `xmlNewDecoder`
(src/epub/reader.go): `CharsetReader = charsetReader` — the decode path
of the package document (`ParseOpf` / `xmlUnmarshal`). -/
def xmlNewDecoderEncodingGate (enc : String) : Except String Unit :=
  xmlDeclaredEncodingGate (some charsetReader) enc

theorem extractIDsLoop_eq_filterMap :
    ∀ l : List EmptyXmlNode, extractIDsLoop l = l.filterMap spineKeep := by
  intro l
  induction l with
  | nil => rfl
  | cons item rest ih =>
    simp only [extractIDsLoop, List.filterMap_cons, spineKeep]
    by_cases h1 : goTrimSpace (attrD item.attrs "idref") = ""
    · simp [h1, ih]
    · cases h2 : lookupAttr item.attrs "linear" with
      | none => simp [h1, h2, ih]
      | some linear =>
        by_cases h3 : goEqualFold linear "no" = true
        · simp [h1, h2, h3, ih]
        · simp [h1, h2, h3, ih]

/-- C9: `ExtractChapterIDs` iterates the spine itemrefs in document order
and collects exactly the trimmed non-blank idrefs of the itemrefs not
marked `linear="no"` (case-insensitively), preserving their relative
order; an itemref whose `linear` attribute case-insensitively equals "no"
contributes nothing. -/
theorem extractChapterIDs_skips_nonlinear :
    ∀ sp : Spine,
      Spine.extractChapterIDs (some sp) = sp.itemrefs.filterMap spineKeep ∧
      ∀ item ∈ sp.itemrefs, ∀ linear,
        lookupAttr item.attrs "linear" = some linear →
        goEqualFold linear "no" = true → spineKeep item = none := by
  intro sp
  constructor
  · exact extractIDsLoop_eq_filterMap sp.itemrefs
  · intro item _ linear hl hf
    by_cases h1 : goTrimSpace (attrD item.attrs "idref") = "" <;>
      simp [spineKeep, h1, hl, hf]

/-- Witness for C9 at a concrete spine: the itemref marked `linear="NO"`
is dropped and the others keep their order. -/
theorem extractChapterIDs_skips_nonlinear_witness :
    Spine.extractChapterIDs
        (some ⟨[⟨"itemref", [("idref", "c1")]⟩,
                ⟨"itemref", [("idref", "c2"), ("linear", "NO")]⟩,
                ⟨"itemref", [("idref", "c3")]⟩], []⟩) = ["c1", "c3"] ∧
      spineKeep ⟨"itemref", [("idref", "c2"), ("linear", "NO")]⟩ = none := by
  refine ⟨((extractChapterIDs_skips_nonlinear _).1).trans (by decide), ?_⟩
  exact (extractChapterIDs_skips_nonlinear
      ⟨[⟨"itemref", [("idref", "c2"), ("linear", "NO")]⟩], []⟩).2
    ⟨"itemref", [("idref", "c2"), ("linear", "NO")]⟩ (by decide) "NO" (by decide) (by decide)

/-- The `charsetReader` hook in isolation accepts exactly a missing,
UTF-8, or US-ASCII declaration (case-insensitively) and rejects every
other charset with the unsupported-charset error. -/
theorem charsetReader_accepts_iff :
    ∀ charset : String,
      (charsetReader charset = Except.ok () ↔
        goToLower charset = "" ∨ goToLower charset = "utf-8" ∨
          goToLower charset = "us-ascii") ∧
      (¬(goToLower charset = "" ∨ goToLower charset = "utf-8" ∨
          goToLower charset = "us-ascii") →
        charsetReader charset = Except.error ("unsupported charset: " ++ charset)) := by
  intro cs
  by_cases h1 : goToLower cs = "" <;> by_cases h2 : goToLower cs = "utf-8" <;>
    by_cases h3 : goToLower cs = "us-ascii" <;> simp [charsetReader, h1, h2, h3]

/-- C10: both first-match-by-name searches include the node they start
at: an XML node whose local name case-insensitively equals the searched
name is returned itself, and an HTML element node whose name exactly
equals the searched name is returned itself, whatever its children. -/
theorem findNode_includes_self :
    ∀ (xn : XmlNode) (hn : HtmlNode) (xname hname : String),
      (goEqualFold xn.xmlName.localName xname = true →
        XmlNode.findNode xname xn = some xn) ∧
      (hn.nodeType = NodeType.element → hn.name = hname →
        HtmlNode.findNode hname hn = some hn) := by
  intro xn hn xname hname
  constructor
  · intro h
    cases xn with
    | mk nm attrs content children =>
      simp only [XmlNode.xmlName] at h
      simp [XmlNode.findNode, h]
  · intro h1 h2
    simp [HtmlNode.findNode, h1, h2]

/-- Witness for C10 at concrete nodes: a `NavMap` XML element found under
the name "navmap", and a `body` HTML element found under its own name,
each returned as themselves. -/
theorem findNode_includes_self_witness :
    XmlNode.findNode "navmap"
        (.mk ⟨"", "NavMap"⟩ [] "" [.mk ⟨"", "x"⟩ [] "" []]) =
      some (.mk ⟨"", "NavMap"⟩ [] "" [.mk ⟨"", "x"⟩ [] "" []]) ∧
    HtmlNode.findNode "body"
        (.mk NodeType.element "body" [] "" [.mk NodeType.text "" [] "t" []]) =
      some (.mk NodeType.element "body" [] "" [.mk NodeType.text "" [] "t" []]) := by
  constructor
  · exact (findNode_includes_self (.mk ⟨"", "NavMap"⟩ [] "" [.mk ⟨"", "x"⟩ [] "" []])
      (.mk NodeType.element "body" [] "" []) "navmap" "body").1 (by decide)
  · exact (findNode_includes_self (.mk ⟨"", "NavMap"⟩ [] "" [])
      (.mk NodeType.element "body" [] "" [.mk NodeType.text "" [] "t" []])
      "navmap" "body").2 rfl rfl

theorem flattenList_eq_join_map :
    ∀ cs : List TOC, flattenList cs = (cs.map TOC.flatten).flatten := by
  intro cs
  induction cs with
  | nil => rfl
  | cons c rest ih => simp [flattenList, ih]

/-- C4: for a TOC tree rooted at the synthetic container root (empty
title), flattening the book's TOC yields exactly the depth-first
pre-order listing of the tree with the root itself removed: the full
pre-order is the root followed by the concatenated pre-orders of its
children, and `FlattenTOC` returns just that tail. -/
theorem flattenTOC_omits_synthetic_root :
    ∀ (container : Option Container) (opf : Option Opf) (chapters : List Chapter) (t : TOC),
      t.Title = "" →
      TOC.flatten t = t :: (t.Children.map TOC.flatten).flatten ∧
      Book.flattenTOC (some ⟨container, opf, some t, chapters⟩) =
        (t.Children.map TOC.flatten).flatten := by
  intro container opf chapters t _
  cases t with
  | mk ti h cs =>
    have hfl : TOC.flatten (TOC.mk ti h cs) = TOC.mk ti h cs :: (cs.map TOC.flatten).flatten := by
      rw [TOC.flatten, flattenList_eq_join_map]
    refine ⟨by simpa [TOC.Children] using hfl, ?_⟩
    simp only [Book.flattenTOC, hfl, TOC.Children]
    simp

/-- Witness for C4 at a concrete two-level tree under the synthetic root:
the flattened view lists the entries in depth-first pre-order and starts
at the first real entry. -/
theorem flattenTOC_omits_synthetic_root_witness :
    Book.flattenTOC (some ⟨none, none,
        some (TOC.mk "" "" [TOC.mk "A" "a.x" [TOC.mk "B" "b.x" []], TOC.mk "C" "c.x" []]),
        []⟩) =
      [TOC.mk "A" "a.x" [TOC.mk "B" "b.x" []], TOC.mk "B" "b.x" [], TOC.mk "C" "c.x" []] := by
  refine ((flattenTOC_omits_synthetic_root none none []
      (TOC.mk "" "" [TOC.mk "A" "a.x" [TOC.mk "B" "b.x" []], TOC.mk "C" "c.x" []]) rfl).2).trans ?_
  simp [TOC.Children, TOC.flatten, flattenList]

/-- C3: in the chapter loop of `ReadBook`, a chapter id with no entry in
the manifest href lookup, or whose cleaned href names no archive entry,
is skipped with no error and contributes no chapter; if the entry exists
but the chapter parse fails, the loop aborts with that error wrapped in
the chapter id. -/
theorem chaptersLoop_skip_or_abort :
    ∀ (lookup : String → Option String) (files : List String)
      (parseChapter : String → String → Except String Chapter) (id : String)
      (rest : List String),
      (lookup id = none →
        chaptersLoop lookup files parseChapter (id :: rest) =
          chaptersLoop lookup files parseChapter rest) ∧
      (∀ href, lookup id = some href → files.contains (pathClean href) = false →
        chaptersLoop lookup files parseChapter (id :: rest) =
          chaptersLoop lookup files parseChapter rest) ∧
      (∀ href e, lookup id = some href → files.contains (pathClean href) = true →
        parseChapter id (pathClean href) = Except.error e →
        chaptersLoop lookup files parseChapter (id :: rest) =
          Except.error ("parse chapter " ++ id ++ ": " ++ e)) := by
  intro lookup files parseChapter id rest
  refine ⟨?_, ?_, ?_⟩
  · intro h
    simp [chaptersLoop, h]
  · intro href h1 h2
    have h2m : pathClean href ∉ files := by simpa using h2
    simp [chaptersLoop, h1, h2m]
  · intro href e h1 h2 h3
    have h2m : pathClean href ∈ files := by simpa using h2
    simp [chaptersLoop, h1, h2m, h3]

/-- Witness for C3 at concrete data: an id absent from the lookup and an
id whose href is missing from the archive are both skipped leaving a
successful empty result, while a present-but-unparseable chapter aborts
the loop with the wrapped error. -/
theorem chaptersLoop_skip_or_abort_witness :
    chaptersLoop (fun id => if id = "c3" then some "ch3.xhtml" else none) ["ch3.xhtml"]
        (fun _ _ => Except.error "bad xml") ["c1"] = Except.ok [] ∧
    chaptersLoop (fun id => if id = "c2" then some "missing.xhtml" else none) ["ch3.xhtml"]
        (fun _ _ => Except.error "bad xml") ["c2"] = Except.ok [] ∧
    chaptersLoop (fun id => if id = "c3" then some "ch3.xhtml" else none) ["ch3.xhtml"]
        (fun _ _ => Except.error "bad xml") ["c3"] =
      Except.error ("parse chapter " ++ "c3" ++ ": " ++ "bad xml") := by
  refine ⟨?_, ?_, ?_⟩
  · exact ((chaptersLoop_skip_or_abort _ _ _ "c1" []).1 (by decide)).trans rfl
  · exact ((chaptersLoop_skip_or_abort _ _ _ "c2" []).2.1 "missing.xhtml" (by decide)
      (by decide)).trans rfl
  · exact (chaptersLoop_skip_or_abort _ _ _ "c3" []).2.2 "ch3.xhtml" "bad xml" (by decide)
      (by decide) rfl

/-- C2: `FindTOCFile` applies exactly the priority order: (1) the first
manifest item whose space-tokenized `properties` contains "nav"
case-insensitively gives tag EPUB3 and its href resolved against the
package document's directory; (2) else, a spine `toc` attribute matched
by a manifest item id gives tag EPUB2 and that item's resolved href;
(3) else the first item with the NCX media-type (case-insensitive) gives
tag EPUB2 and its resolved href; (4) else tag UNKNOWN and the empty
path. -/
theorem findTOCFile_priority :
    ∀ (opf : Opf) (opfPath : String),
      (∀ item, (manifestItems opf).find? itemHasNavProp = some item →
        Opf.findTOCFile opf opfPath =
          (TOCTypeEPUB3, resolveRelative (opfBaseDir opfPath) (attrD item.attrs "href"))) ∧
      (∀ id item, (manifestItems opf).find? itemHasNavProp = none →
        spineTocAttr opf = some id →
        (manifestItems opf).find? (fun it => decide (attrD it.attrs "id" = id)) = some item →
        Opf.findTOCFile opf opfPath =
          (TOCTypeEPUB2, resolveRelative (opfBaseDir opfPath) (attrD item.attrs "href"))) ∧
      (∀ item, (manifestItems opf).find? itemHasNavProp = none →
        (spineTocAttr opf = none ∨ ∃ id, spineTocAttr opf = some id ∧
          (manifestItems opf).find? (fun it => decide (attrD it.attrs "id" = id)) = none) →
        (manifestItems opf).find? itemIsNCX = some item →
        Opf.findTOCFile opf opfPath =
          (TOCTypeEPUB2, resolveRelative (opfBaseDir opfPath) (attrD item.attrs "href"))) ∧
      ((manifestItems opf).find? itemHasNavProp = none →
        (spineTocAttr opf = none ∨ ∃ id, spineTocAttr opf = some id ∧
          (manifestItems opf).find? (fun it => decide (attrD it.attrs "id" = id)) = none) →
        (manifestItems opf).find? itemIsNCX = none →
        Opf.findTOCFile opf opfPath = (TOCTypeUnknown, "")) := by
  intro opf opfPath
  refine ⟨?_, ?_, ?_, ?_⟩
  · intro item h1
    simp [Opf.findTOCFile, h1]
  · intro id item h1 h2 h3
    simp [Opf.findTOCFile, h1, h2, h3]
  · intro item h1 h2 h3
    rcases h2 with h2 | ⟨id, h2a, h2b⟩
    · simp [Opf.findTOCFile, findNCXFallback, h1, h2, h3]
    · simp [Opf.findTOCFile, findNCXFallback, h1, h2a, h2b, h3]
  · intro h1 h2 h3
    rcases h2 with h2 | ⟨id, h2a, h2b⟩
    · simp [Opf.findTOCFile, findNCXFallback, h1, h2, h3]
    · simp [Opf.findTOCFile, findNCXFallback, h1, h2a, h2b, h3]

/-- Witness for C2, the claim's own scenario: a manifest item
`{id:"nav", href:"nav.xhtml", properties:"nav"}` with the package
document at `OEBPS/content.opf` yields ("EPUB3", "OEBPS/nav.xhtml"). -/
theorem findTOCFile_priority_witness :
    Opf.findTOCFile
        ⟨none, some ⟨[⟨"item", [("id", "nav"), ("href", "nav.xhtml"), ("properties", "nav")]⟩]⟩,
         none⟩ "OEBPS/content.opf" = ("EPUB3", "OEBPS/nav.xhtml") := by
  refine ((findTOCFile_priority
      ⟨none, some ⟨[⟨"item", [("id", "nav"), ("href", "nav.xhtml"), ("properties", "nav")]⟩]⟩,
       none⟩ "OEBPS/content.opf").1
    ⟨"item", [("id", "nav"), ("href", "nav.xhtml"), ("properties", "nav")]⟩ (by decide)).trans ?_
  decide

/-- One entry's contribution to `GetAll` under a given display key: its
displayed value when that value is non-empty and the entry's display key
matches, nothing otherwise. -/
def getAllEntryOut (tag key : String) (e : MetaEntry) : Option String :=
  if getAllValue e ≠ "" ∧ getAllKey tag e = key then some (getAllValue e) else none

theorem getAllAddEntries_apply (tag : String) :
    ∀ (es : List MetaEntry) (m : String → List String) (key : String),
      getAllAddEntries tag es m key = m key ++ es.filterMap (getAllEntryOut tag key) := by
  intro es
  induction es with
  | nil => intro m key; simp [getAllAddEntries]
  | cons e es ih =>
    intro m key
    simp only [getAllAddEntries, List.filterMap_cons]
    by_cases hv : getAllValue e = ""
    · simp [hv, ih, getAllEntryOut]
    · by_cases hk : getAllKey tag e = key
      · subst hk
        rw [ih]
        simp [strMapAdd, hv, getAllEntryOut]
      · rw [ih]
        have hk2 : ¬(key = getAllKey tag e) := fun h => hk h.symm
        simp [strMapAdd, hv, getAllEntryOut, hk, hk2]

theorem getAllAddTags_apply :
    ∀ (ts : List (String × List MetaEntry)) (m : String → List String) (key : String),
      getAllAddTags ts m key =
        m key ++ ts.flatMap (fun tg => tg.2.filterMap (getAllEntryOut tg.1 key)) := by
  intro ts
  induction ts with
  | nil => intro m key; simp [getAllAddTags]
  | cons tg rest ih =>
    intro m key
    cases tg with
    | mk tag entries =>
      simp only [getAllAddTags, List.flatMap_cons]
      rw [ih, getAllAddEntries_apply]
      simp [List.append_assoc]

theorem getAllAddNS_apply :
    ∀ (data : List (String × List (String × List MetaEntry)))
      (m : String → List String) (key : String),
      getAllAddNS data m key =
        m key ++ data.flatMap (fun ns =>
          ns.2.flatMap (fun tg => tg.2.filterMap (getAllEntryOut tg.1 key))) := by
  intro data
  induction data with
  | nil => intro m key; simp [getAllAddNS]
  | cons ns rest ih =>
    intro m key
    cases ns with
    | mk nsName tags =>
      simp only [getAllAddNS, List.flatMap_cons]
      rw [ih, getAllAddTags_apply]
      simp [List.append_assoc]

/-- C8: for every metadata value and display key, `GetAll` returns, in
iteration order, the displayed values of exactly those entries whose
displayed value (text, else `content` attribute) is non-empty and whose
display key (the tag, with the `meta` name/property rule) matches; in
particular every returned value is non-empty. -/
theorem getAll_displayed_values :
    ∀ (m : Metadata) (key : String),
      metadataGetAll (some m) key =
        m.data.flatMap (fun ns =>
          ns.2.flatMap (fun tg => tg.2.filterMap (getAllEntryOut tg.1 key))) ∧
      ∀ v ∈ metadataGetAll (some m) key, v ≠ "" := by
  intro m key
  have hchar : metadataGetAll (some m) key =
      m.data.flatMap (fun ns =>
        ns.2.flatMap (fun tg => tg.2.filterMap (getAllEntryOut tg.1 key))) := by
    show getAllAddNS m.data emptyStrMap key = _
    rw [getAllAddNS_apply]
    simp [emptyStrMap]
  refine ⟨hchar, ?_⟩
  intro v hv
  rw [hchar] at hv
  simp only [List.mem_flatMap, List.mem_filterMap] at hv
  obtain ⟨ns, _, tg, _, e, _, he⟩ := hv
  by_cases hcond : getAllValue e ≠ "" ∧ getAllKey tg.1 e = key
  · rw [getAllEntryOut, if_pos hcond] at he
    have : getAllValue e = v := Option.some.inj he
    rw [← this]
    exact hcond.1
  · rw [getAllEntryOut, if_neg hcond] at he
    exact absurd he (Option.noConfusion)

/-- Witness for C8 at a concrete metadata value: an entry with text, a
`meta` entry displayed through its `content` attribute under the
`meta:name` key, and an entry with neither text nor content skipped; the
returned value under `meta:cover` is non-empty. -/
theorem getAll_displayed_values_witness :
    metadataGetAll (some ⟨[("opf",
        [("title", [⟨"My Book", []⟩]),
         ("meta", [⟨"", [("name", "cover"), ("content", "img1")]⟩,
                   ⟨"", [("name", "empty")]⟩])])]⟩) "meta:cover" = ["img1"] ∧
      "img1" ≠ "" := by
  refine ⟨((getAll_displayed_values ⟨[("opf",
      [("title", [⟨"My Book", []⟩]),
       ("meta", [⟨"", [("name", "cover"), ("content", "img1")]⟩,
                 ⟨"", [("name", "empty")]⟩])])]⟩ "meta:cover").1).trans (by decide), ?_⟩
  exact (getAll_displayed_values ⟨[("opf",
      [("title", [⟨"My Book", []⟩]),
       ("meta", [⟨"", [("name", "cover"), ("content", "img1")]⟩,
                 ⟨"", [("name", "empty")]⟩])])]⟩ "meta:cover").2 "img1" (by decide)

/-- The trimmed non-empty text values of a list of metadata entries, in
order (the per-tag accumulation rule of `Normalize`). -/
def dcEntryValues (es : List MetaEntry) : List String :=
  es.filterMap (fun e =>
    if goTrimSpace e.value ≠ "" then some (goTrimSpace e.value) else none)

theorem normalizeAddEntries_apply (tag : String) :
    ∀ (es : List MetaEntry) (m : String → List String) (key : String),
      normalizeAddEntries tag es m key =
        m key ++ (if tag = key then dcEntryValues es else []) := by
  intro es
  induction es with
  | nil => intro m key; simp [normalizeAddEntries, dcEntryValues]
  | cons e es ih =>
    intro m key
    simp only [normalizeAddEntries, dcEntryValues, List.filterMap_cons]
    by_cases hv : goTrimSpace e.value = ""
    · simp only [hv]
      rw [ih]
      simp [dcEntryValues]
    · by_cases hk : tag = key
      · subst hk
        rw [ih]
        simp [strMapAdd, hv, dcEntryValues]
      · have hk2 : ¬(key = tag) := fun h => hk h.symm
        rw [ih]
        simp [strMapAdd, hv, hk, hk2]

theorem normalizeAddTags_apply :
    ∀ (ts : List (String × List MetaEntry)) (m : String → List String) (key : String),
      normalizeAddTags ts m key =
        m key ++ ts.flatMap (fun tg =>
          if goIn dublinCoreElements tg.1 = true ∧ tg.1 = key then dcEntryValues tg.2
          else []) := by
  intro ts
  induction ts with
  | nil => intro m key; simp [normalizeAddTags]
  | cons tg rest ih =>
    intro m key
    cases tg with
    | mk tag entries =>
      by_cases hdc : goIn dublinCoreElements tag = true
      · simp only [normalizeAddTags, List.flatMap_cons, hdc, if_true]
        rw [ih, normalizeAddEntries_apply]
        by_cases hk : tag = key
        · simp [hk, List.append_assoc]
        · simp [hk]
      · simp only [normalizeAddTags, List.flatMap_cons, hdc, if_false]
        rw [ih]
        simp [hdc]

theorem normalizeAddNS_apply :
    ∀ (data : List (String × List (String × List MetaEntry)))
      (m : String → List String) (key : String),
      normalizeAddNS data m key =
        m key ++ data.flatMap (fun ns => ns.2.flatMap (fun tg =>
          if goIn dublinCoreElements tg.1 = true ∧ tg.1 = key then dcEntryValues tg.2
          else [])) := by
  intro data
  induction data with
  | nil => intro m key; simp [normalizeAddNS]
  | cons ns rest ih =>
    intro ns2 key
    cases ns with
    | mk nsName tags =>
      simp only [normalizeAddNS, List.flatMap_cons]
      rw [ih, normalizeAddTags_apply]
      simp [List.append_assoc]

/-- Counterexample to C5: `Normalize` compares tags to the Dublin Core
names case-sensitively, so a `Title` element is dropped entirely — it is
retained under no key — while the same element spelt `title` is kept. -/
theorem normalize_drops_uppercase_tag :
    metadataNormalize (some ⟨[("ns", [("Title", [⟨"X", []⟩])])]⟩) "title" = [] ∧
    metadataNormalize (some ⟨[("ns", [("Title", [⟨"X", []⟩])])]⟩) "Title" = [] ∧
    metadataNormalize (some ⟨[("ns", [("title", [⟨"X", []⟩])])]⟩) "title" = ["X"] := by
  refine ⟨?_, ?_, ?_⟩ <;> decide

/-- C5 (amended): `Normalize` retains exactly the entries whose tag is
case-sensitively equal to one of the fifteen canonical Dublin Core
element names (so `Title` or `TITLE` is dropped, not retained), and for
each retained tag accumulates the trimmed non-empty text values in
iteration order. -/
theorem normalize_casesensitive_dublincore :
    ∀ (m : Metadata) (key : String),
      (key ∈ dublinCoreElements →
        metadataNormalize (some m) key =
          m.data.flatMap (fun ns => ns.2.flatMap (fun tg =>
            if tg.1 = key then dcEntryValues tg.2 else []))) ∧
      (key ∉ dublinCoreElements → metadataNormalize (some m) key = []) := by
  intro m key
  have hbase : metadataNormalize (some m) key =
      m.data.flatMap (fun ns => ns.2.flatMap (fun tg =>
        if goIn dublinCoreElements tg.1 = true ∧ tg.1 = key then dcEntryValues tg.2
        else [])) := by
    show normalizeAddNS m.data emptyStrMap key = _
    rw [normalizeAddNS_apply]
    simp [emptyStrMap]
  constructor
  · intro hmem
    rw [hbase]
    have hfun : ∀ tg : String × List MetaEntry,
        (if goIn dublinCoreElements tg.1 = true ∧ tg.1 = key then dcEntryValues tg.2
         else []) = (if tg.1 = key then dcEntryValues tg.2 else []) := by
      intro tg
      by_cases hk : tg.1 = key
      · have hg : goIn dublinCoreElements key = true := (goIn_dublinCore key).mpr hmem
        simp [hk, hg]
      · simp [hk]
    simp only [hfun]
  · intro hmem
    rw [hbase]
    have hfun : ∀ tg : String × List MetaEntry,
        (if goIn dublinCoreElements tg.1 = true ∧ tg.1 = key then dcEntryValues tg.2
         else []) = ([] : List String) := by
      intro tg
      by_cases hk : tg.1 = key
      · have : goIn dublinCoreElements tg.1 ≠ true := by
          rw [hk]
          intro hc
          exact hmem ((goIn_dublinCore key).mp hc)
        simp [this]
      · simp [hk]
    simp only [hfun]
    simp

/-- Witness for the amended C5 at a concrete metadata value: lowercase
`title` entries are retained with trimmed non-empty values in order, and
the non-Dublin-Core key `meta` yields nothing. -/
theorem normalize_casesensitive_dublincore_witness :
    metadataNormalize (some ⟨[("ns",
        [("title", [⟨" A ", []⟩, ⟨"  ", []⟩, ⟨"B", []⟩]),
         ("meta", [⟨"M", []⟩])])]⟩) "title" = ["A", "B"] ∧
    metadataNormalize (some ⟨[("ns",
        [("title", [⟨" A ", []⟩, ⟨"  ", []⟩, ⟨"B", []⟩]),
         ("meta", [⟨"M", []⟩])])]⟩) "meta" = [] := by
  constructor
  · exact ((normalize_casesensitive_dublincore ⟨[("ns",
      [("title", [⟨" A ", []⟩, ⟨"  ", []⟩, ⟨"B", []⟩]),
       ("meta", [⟨"M", []⟩])])]⟩ "title").1 (by decide)).trans (by decide)
  · exact (normalize_casesensitive_dublincore ⟨[("ns",
      [("title", [⟨" A ", []⟩, ⟨"  ", []⟩, ⟨"B", []⟩]),
       ("meta", [⟨"M", []⟩])])]⟩ "meta").2 (by decide)

/-- The values accumulated for a Dublin Core key through the book's
metadata chain (empty when any pointer on the way is nil). -/
def bookKeyValues (b : Option Book) (key : String) : List String :=
  match b with
  | none => []
  | some bk =>
    match bk.opf with
    | none => []
    | some opf => metadataGet opf.metadata key

theorem dc_keys_canonical :
    ∀ key ∈ dublinCoreElements, goTrimSpace key = key ∧ goToLower key = key ∧ key ≠ "" := by
  decide

theorem metadataValues_ok_nonempty :
    ∀ (b : Option Book) (key : String) (vs : List String),
      Book.metadataValues b key = Except.ok vs → vs ≠ [] := by
  intro b key vs h
  by_cases hk : goToLower (goTrimSpace key) = ""
  · simp [Book.metadataValues, hk] at h
  · cases b with
    | none => simp [Book.metadataValues, hk] at h
    | some bk =>
      cases hopf : bk.opf with
      | none => simp [Book.metadataValues, hk, hopf] at h
      | some o =>
        cases hmd : o.metadata with
        | none => simp [Book.metadataValues, hk, hopf, hmd] at h
        | some md =>
          by_cases hv : metadataGet (some md) (goToLower (goTrimSpace key)) = []
          · simp [Book.metadataValues, hk, hopf, hmd, hv] at h
          · simp only [Book.metadataValues, hk, hopf, hmd, hv, if_neg, if_false] at h
            have : metadataGet (some md) (goToLower (goTrimSpace key)) = vs := by
              simpa using h
            rw [← this]
            exact hv

/-- C7: for each of the fifteen Dublin Core keys, the single-value
accessor returns the head of the multi-value accessor's (necessarily
non-empty) successful result, and returns the `metadata not defined`
failure when the key has no accumulated value; every named accessor is
the single-value accessor at its key. -/
theorem metadataValue_first_or_undefined :
    ∀ b : Option Book,
      (∀ key vs, key ∈ dublinCoreElements → Book.metadataValues b key = Except.ok vs →
        vs ≠ [] ∧ Book.metadataValue b key = Except.ok (vs.headD "")) ∧
      (∀ key, key ∈ dublinCoreElements → bookKeyValues b key = [] →
        Book.metadataValue b key = Except.error (metadataUndefinedMsg key)) ∧
      (Book.title b = Book.metadataValue b "title" ∧
       Book.creator b = Book.metadataValue b "creator" ∧
       Book.subject b = Book.metadataValue b "subject" ∧
       Book.description b = Book.metadataValue b "description" ∧
       Book.publisher b = Book.metadataValue b "publisher" ∧
       Book.contributor b = Book.metadataValue b "contributor" ∧
       Book.date b = Book.metadataValue b "date" ∧
       Book.typeField b = Book.metadataValue b "type" ∧
       Book.format b = Book.metadataValue b "format" ∧
       Book.identifier b = Book.metadataValue b "identifier" ∧
       Book.language b = Book.metadataValue b "language" ∧
       Book.source b = Book.metadataValue b "source" ∧
       Book.relation b = Book.metadataValue b "relation" ∧
       Book.coverage b = Book.metadataValue b "coverage" ∧
       Book.rights b = Book.metadataValue b "rights") := by
  intro b
  refine ⟨?_, ?_, rfl, rfl, rfl, rfl, rfl, rfl, rfl, rfl, rfl, rfl, rfl, rfl, rfl, rfl, rfl⟩
  · intro key vs hmem hok
    refine ⟨metadataValues_ok_nonempty b key vs hok, ?_⟩
    simp [Book.metadataValue, hok]
  · intro key hmem hempty
    obtain ⟨htrim, hlower, hne⟩ := dc_keys_canonical key hmem
    have hkey : goToLower (goTrimSpace key) = key := by rw [htrim, hlower]
    have hvals : Book.metadataValues b key = Except.error (metadataUndefinedMsg key) := by
      cases b with
      | none => simp [Book.metadataValues, hkey, hne]
      | some bk =>
        cases hopf : bk.opf with
        | none => simp [Book.metadataValues, hkey, hne, hopf]
        | some o =>
          cases hmd : o.metadata with
          | none => simp [Book.metadataValues, hkey, hne, hopf, hmd]
          | some md =>
            have hv : metadataGet (some md) key = [] := by
              have := hempty
              simp only [bookKeyValues, hopf, hmd] at this
              exact this
            simp [Book.metadataValues, hkey, hne, hopf, hmd, hv]
    simp [Book.metadataValue, hvals]

/-- Witness for C7 at a concrete book whose metadata has a title but no
publisher: `Publisher` yields the `metadata not defined: publisher`
failure and `Title` yields the first (and only) title value. -/
theorem metadataValue_first_or_undefined_witness :
    Book.publisher (some ⟨none, some ⟨some ⟨[("ns", [("title", [⟨"T", []⟩])])]⟩, none, none⟩,
        none, []⟩) = Except.error (metadataUndefinedMsg "publisher") ∧
    Book.title (some ⟨none, some ⟨some ⟨[("ns", [("title", [⟨"T", []⟩])])]⟩, none, none⟩,
        none, []⟩) = Except.ok "T" := by
  obtain ⟨hfirst, habsent, htitle, _, _, _, hpub, _⟩ :=
    metadataValue_first_or_undefined (some ⟨none,
      some ⟨some ⟨[("ns", [("title", [⟨"T", []⟩])])]⟩, none, none⟩, none, []⟩)
  constructor
  · exact hpub.trans (habsent "publisher" (by decide) (by decide))
  · exact htitle.trans ((hfirst "title" ["T"] (by decide) rfl).2.trans rfl)

/-- The values of the `src` attributes in an attribute list. -/
def srcAttrValues (attrs : List XmlAttr) : List String :=
  attrs.filterMap (fun a => if a.name.localName = "src" then some a.value else none)

/-- The values of the `href` attributes in an attribute list. -/
def hrefAttrValues (attrs : List XmlAttr) : List String :=
  attrs.filterMap (fun a => if a.name.localName = "href" then some a.value else none)

mutual

/-- All `src` attribute values occurring anywhere in a subtree. -/
def nodeSrcValues : XmlNode → List String
  | .mk _ attrs _ children => srcAttrValues attrs ++ forestSrcValues children

/-- All `src` attribute values occurring anywhere in a forest. -/
def forestSrcValues : List XmlNode → List String
  | [] => []
  | c :: cs => nodeSrcValues c ++ forestSrcValues cs

end

mutual

/-- All `href` attribute values occurring anywhere in a subtree. -/
def nodeHrefValues : XmlNode → List String
  | .mk _ attrs _ children => hrefAttrValues attrs ++ forestHrefValues children

/-- All `href` attribute values occurring anywhere in a forest. -/
def forestHrefValues : List XmlNode → List String
  | [] => []
  | c :: cs => nodeHrefValues c ++ forestHrefValues cs

end

theorem flattenList_append :
    ∀ x y : List TOC, flattenList (x ++ y) = flattenList x ++ flattenList y := by
  intro x y
  induction x with
  | nil => simp [flattenList]
  | cons c cs ih => simp [flattenList, ih]

theorem contentSrcLoop_origin :
    ∀ (b : String) (attrs : List XmlAttr) (h : String),
      contentSrcLoop b attrs h = h ∨
      ∃ v ∈ srcAttrValues attrs,
        contentSrcLoop b attrs h = resolveRelative b (goTrimSpace v) := by
  intro b attrs
  induction attrs with
  | nil => intro h; left; rfl
  | cons a as ih =>
    intro h
    by_cases hs : a.name.localName = "src"
    · rcases ih (resolveRelative b (goTrimSpace a.value)) with h1 | ⟨v, hv, h2⟩
      · right
        refine ⟨a.value, by simp [srcAttrValues, hs], ?_⟩
        simp only [contentSrcLoop, hs, if_pos]
        simpa using h1
      · right
        refine ⟨v, by simp [srcAttrValues, hs]; right; simpa [srcAttrValues] using hv, ?_⟩
        simp only [contentSrcLoop, hs, if_pos]
        simpa using h2
    · rcases ih h with h1 | ⟨v, hv, h2⟩
      · left
        simp only [contentSrcLoop, hs, if_neg, if_false]
        simpa [hs] using h1
      · right
        refine ⟨v, by simp [srcAttrValues, hs]; simpa [srcAttrValues] using hv, ?_⟩
        simp only [contentSrcLoop, hs, if_neg, if_false]
        simpa [hs] using h2

theorem navPointInfoLoop_src_origin :
    ∀ (b : String) (cs : List XmlNode) (p : String × String),
      (navPointInfoLoop b cs p).2 = p.2 ∨
      ∃ v ∈ forestSrcValues cs,
        (navPointInfoLoop b cs p).2 = resolveRelative b (goTrimSpace v) := by
  intro b cs
  induction cs with
  | nil => intro p; left; rfl
  | cons c cs ih =>
    intro p
    obtain ⟨label, href⟩ := p
    cases c with
    | mk nm cattrs cct cch =>
      by_cases h1 : nm.localName = "navLabel"
      · have hstep : navPointInfoLoop b (XmlNode.mk nm cattrs cct cch :: cs) (label, href) =
            navPointInfoLoop b cs
              (goTrimSpace (XmlNode.nodeText (XmlNode.mk nm cattrs cct cch)), href) := by
          simp [navPointInfoLoop, h1]
        rw [hstep]
        rcases ih (goTrimSpace (XmlNode.nodeText (XmlNode.mk nm cattrs cct cch)), href) with
            ha | ⟨v, hv, hb⟩
        · left; exact ha
        · right; exact ⟨v, by simp [forestSrcValues]; right; exact hv, hb⟩
      · by_cases h2 : nm.localName = "content"
        · have hstep : navPointInfoLoop b (XmlNode.mk nm cattrs cct cch :: cs) (label, href) =
              navPointInfoLoop b cs (label, contentSrcLoop b cattrs href) := by
            simp [navPointInfoLoop, h1, h2]
          rw [hstep]
          rcases ih (label, contentSrcLoop b cattrs href) with ha | ⟨v, hv, hb⟩
          · rcases contentSrcLoop_origin b cattrs href with hc | ⟨v, hv, hd⟩
            · left
              rw [ha]
              exact hc
            · right
              refine ⟨v, ?_, ?_⟩
              · simp only [forestSrcValues, nodeSrcValues, List.mem_append]
                exact Or.inl (Or.inl hv)
              · rw [ha]; exact hd
          · right; exact ⟨v, by simp [forestSrcValues]; right; exact hv, hb⟩
        · have hstep : navPointInfoLoop b (XmlNode.mk nm cattrs cct cch :: cs) (label, href) =
              navPointInfoLoop b cs (label, href) := by
            simp [navPointInfoLoop, h1, h2]
          rw [hstep]
          rcases ih (label, href) with ha | ⟨v, hv, hb⟩
          · left; exact ha
          · right; exact ⟨v, by simp [forestSrcValues]; right; exact hv, hb⟩

theorem parseNavPoints_href_origin (b : String) :
    ∀ ns : List XmlNode, ∀ t ∈ flattenList (parseNavPoints b ns),
      t.Href = pathClean "" ∨
      ∃ v ∈ forestSrcValues ns, t.Href = pathClean (resolveRelative b (goTrimSpace v)) := by
  intro ns
  induction ns using parseNavPoints.induct b with
  | case1 => simp [parseNavPoints, flattenList]
  | case2 cs n attrs content xmlNodes hname ihc ihr =>
    have hstep : parseNavPoints b (XmlNode.mk n attrs content xmlNodes :: cs) =
        (if (navPointInfoLoop b xmlNodes ("", "")).1 ≠ "" then
          [TOC.mk (navPointInfoLoop b xmlNodes ("", "")).1
            (pathClean (navPointInfoLoop b xmlNodes ("", "")).2)
            (parseNavPoints b xmlNodes)] else []) ++ parseNavPoints b cs := by
      simp [parseNavPoints, hname]
    intro t ht
    rw [hstep, flattenList_append] at ht
    rcases List.mem_append.mp ht with ht | ht
    · by_cases hl : (navPointInfoLoop b xmlNodes ("", "")).1 ≠ ""
      · rw [if_pos hl] at ht
        simp only [flattenList, TOC.flatten, List.append_nil, List.mem_cons] at ht
        rcases ht with rfl | ht
        · rcases navPointInfoLoop_src_origin b xmlNodes ("", "") with hz | ⟨v, hv, he⟩
          · left
            simp [TOC.Href, hz]
          · right
            refine ⟨v, ?_, ?_⟩
            · simp only [forestSrcValues, nodeSrcValues, List.mem_append]
              exact Or.inl (Or.inr hv)
            · simp [TOC.Href, he]
        · rcases ihc t ht with hz | ⟨v, hv, he⟩
          · left; exact hz
          · right
            refine ⟨v, ?_, he⟩
            simp only [forestSrcValues, nodeSrcValues, List.mem_append]
            exact Or.inl (Or.inr hv)
      · rw [if_neg hl] at ht
        simp [flattenList] at ht
    · rcases ihr t ht with hz | ⟨v, hv, he⟩
      · left; exact hz
      · right
        refine ⟨v, ?_, he⟩
        simp only [forestSrcValues, List.mem_append]
        exact Or.inr hv
  | case3 cs n attrs content xmlNodes hname ihr =>
    have hstep : parseNavPoints b (XmlNode.mk n attrs content xmlNodes :: cs) =
        parseNavPoints b cs := by
      simp [parseNavPoints, hname]
    intro t ht
    rw [hstep] at ht
    rcases ihr t ht with hz | ⟨v, hv, he⟩
    · left; exact hz
    · right
      refine ⟨v, ?_, he⟩
      simp only [forestSrcValues, List.mem_append]
      exact Or.inr hv

/-- An href produced by the Navigation Document parser with base `b` and
raw href values `H`: still the initial empty string, or some raw value of
`H` resolved against `b`. -/
def hrefOK (b : String) (H : List String) (h : String) : Prop :=
  h = "" ∨ ∃ v ∈ H, h = resolveRelative b v

/-- All entries of a parsed TOC forest have hrefs from `H` resolved
against `b`. -/
def navEntriesOK (b : String) (H : List String) (l : List TOC) : Prop :=
  ∀ t ∈ flattenList l, hrefOK b H (TOC.Href t)

theorem hrefOK_mono {b : String} {H H' : List String} {h : String}
    (hs : ∀ v ∈ H, v ∈ H') : hrefOK b H h → hrefOK b H' h := by
  rintro (rfl | ⟨v, hv, he⟩)
  · exact Or.inl rfl
  · exact Or.inr ⟨v, hs v hv, he⟩

theorem navEntriesOK_mono {b : String} {H H' : List String} {l : List TOC}
    (hs : ∀ v ∈ H, v ∈ H') : navEntriesOK b H l → navEntriesOK b H' l :=
  fun h t ht => hrefOK_mono hs (h t ht)

theorem firstHrefAttr_mem {attrs : List XmlAttr} {v : String}
    (h : firstHrefAttr attrs = some v) : v ∈ hrefAttrValues attrs := by
  simp only [firstHrefAttr, Option.map_eq_some'] at h
  obtain ⟨a, ha, rfl⟩ := h
  have hmem : a ∈ attrs := List.mem_of_find?_eq_some ha
  have hp : a.name.localName = "href" := by
    have := List.find?_some ha
    simpa using this
  simp only [hrefAttrValues, List.mem_filterMap]
  exact ⟨a, hmem, by simp [hp]⟩

theorem parseNav_origin_bounded :
    ∀ (n : Nat) (b : String),
      (∀ node : XmlNode, sizeOf node < n →
        navEntriesOK b (nodeHrefValues node) (parseList b node)) ∧
      (∀ lis : List XmlNode, sizeOf lis < n →
        navEntriesOK b (forestHrefValues lis) (parseItems b lis)) ∧
      (∀ (cs : List XmlNode) (e : TOC), sizeOf cs < n → ∀ H : List String,
        hrefOK b H (TOC.Href e) → navEntriesOK b H (TOC.Children e) →
        hrefOK b (forestHrefValues cs ++ H) (TOC.Href (parseLiChildren b cs e)) ∧
        navEntriesOK b (forestHrefValues cs ++ H)
          (TOC.Children (parseLiChildren b cs e))) := by
  intro n
  induction n with
  | zero =>
    intro b
    refine ⟨fun node h => ?_, fun lis h => ?_, fun cs e h => ?_⟩ <;> omega
  | succ n ih =>
    intro b
    obtain ⟨ih1, ih2, ih3⟩ := ih b
    refine ⟨?_, ?_, ?_⟩
    · intro node hsize
      cases node with
      | mk nm attrs ct children =>
        have hs1 : sizeOf children < n := by
          simp only [XmlNode.mk.sizeOf_spec] at hsize
          omega
        have hstep : parseList b (XmlNode.mk nm attrs ct children) =
            parseItems b children := by
          simp [parseList]
        rw [hstep]
        refine navEntriesOK_mono ?_ (ih2 children hs1)
        intro v hv
        simp only [nodeHrefValues, List.mem_append]
        exact Or.inr hv
    · intro lis hsize
      cases lis with
      | nil =>
        intro t ht
        simp [parseItems, flattenList] at ht
      | cons li rest =>
        cases li with
        | mk nm lattrs lct lch =>
          have hsrest : sizeOf rest < n := by
            simp only [List.cons.sizeOf_spec, XmlNode.mk.sizeOf_spec] at hsize
            omega
          have hslch : sizeOf lch < n := by
            simp only [List.cons.sizeOf_spec, XmlNode.mk.sizeOf_spec] at hsize
            omega
          by_cases hname : nm.localName = "li"
          · have hinit1 : hrefOK b ([] : List String) (TOC.Href (TOC.mk "" "" [])) :=
              Or.inl rfl
            have hinit2 : navEntriesOK b ([] : List String)
                (TOC.Children (TOC.mk "" "" [])) := by
              intro t ht
              simp [TOC.Children, flattenList] at ht
            obtain ⟨hr1, hr2⟩ := ih3 lch (TOC.mk "" "" []) hslch [] hinit1 hinit2
            cases hr : parseLiChildren b lch (TOC.mk "" "" []) with
            | mk t0 h0 cs0 =>
              rw [hr] at hr1 hr2
              have hstep : parseItems b (XmlNode.mk nm lattrs lct lch :: rest) =
                  (if t0 ≠ "" then [TOC.mk t0 h0 cs0] else []) ++ parseItems b rest := by
                simp [parseItems, hname, hr]
              intro t ht
              rw [hstep, flattenList_append] at ht
              rcases List.mem_append.mp ht with ht | ht
              · by_cases ht0 : t0 ≠ ""
                · rw [if_pos ht0] at ht
                  simp only [flattenList, TOC.flatten, List.append_nil,
                    List.mem_cons] at ht
                  rcases ht with rfl | ht
                  · refine hrefOK_mono ?_ hr1
                    intro v hv
                    simp only [List.append_nil] at hv
                    simp only [forestHrefValues, nodeHrefValues, List.mem_append]
                    exact Or.inl (Or.inr hv)
                  · have hmem := hr2 t (by simpa [TOC.Children] using ht)
                    refine hrefOK_mono ?_ hmem
                    intro v hv
                    simp only [List.append_nil] at hv
                    simp only [forestHrefValues, nodeHrefValues, List.mem_append]
                    exact Or.inl (Or.inr hv)
                · rw [if_neg ht0] at ht
                  simp [flattenList] at ht
              · refine hrefOK_mono ?_ (ih2 rest hsrest t ht)
                intro v hv
                simp only [forestHrefValues, List.mem_append]
                exact Or.inr hv
          · have hstep : parseItems b (XmlNode.mk nm lattrs lct lch :: rest) =
                parseItems b rest := by
              simp [parseItems, hname]
            intro t ht
            rw [hstep] at ht
            refine hrefOK_mono ?_ (ih2 rest hsrest t ht)
            intro v hv
            simp only [forestHrefValues, List.mem_append]
            exact Or.inr hv
    · intro cs e hsize H hpre1 hpre2
      cases cs with
      | nil =>
        have hstep : parseLiChildren b [] e = e := by simp [parseLiChildren]
        have hH : forestHrefValues ([] : List XmlNode) ++ H = H := by
          simp [forestHrefValues]
        rw [hstep, hH]
        exact ⟨hpre1, hpre2⟩
      | cons c cs' =>
        cases c with
        | mk nm cattrs cct cch =>
          cases e with
          | mk et eh ech =>
            have hscs : sizeOf cs' < n := by
              simp only [List.cons.sizeOf_spec, XmlNode.mk.sizeOf_spec] at hsize
              omega
            have hsc : sizeOf (XmlNode.mk nm cattrs cct cch) < n := by
              simp only [List.cons.sizeOf_spec, XmlNode.mk.sizeOf_spec] at hsize
              simp only [XmlNode.mk.sizeOf_spec]
              omega
            have hshuffle : ∀ v ∈ forestHrefValues cs' ++
                  (nodeHrefValues (XmlNode.mk nm cattrs cct cch) ++ H),
                v ∈ forestHrefValues (XmlNode.mk nm cattrs cct cch :: cs') ++ H := by
              intro v hv
              simp only [List.mem_append, forestHrefValues] at hv ⊢
              tauto
            have hlift : ∀ v ∈ H,
                v ∈ nodeHrefValues (XmlNode.mk nm cattrs cct cch) ++ H := by
              intro v hv
              simp only [List.mem_append]
              exact Or.inr hv
            by_cases ha : nm.localName = "a"
            · cases hfa : firstHrefAttr cattrs with
              | some v0 =>
                have hstep : parseLiChildren b
                    (XmlNode.mk nm cattrs cct cch :: cs') (TOC.mk et eh ech) =
                    parseLiChildren b cs'
                      (TOC.mk (goTrimSpace (XmlNode.nodeText (XmlNode.mk nm cattrs cct cch)))
                        (resolveRelative b v0) ech) := by
                  simp [parseLiChildren, ha, hfa]
                rw [hstep]
                have hpre1' : hrefOK b
                    (nodeHrefValues (XmlNode.mk nm cattrs cct cch) ++ H)
                    (TOC.Href (TOC.mk
                      (goTrimSpace (XmlNode.nodeText (XmlNode.mk nm cattrs cct cch)))
                      (resolveRelative b v0) ech)) := by
                  right
                  refine ⟨v0, ?_, by simp [TOC.Href]⟩
                  simp only [nodeHrefValues, List.mem_append]
                  exact Or.inl (Or.inl (firstHrefAttr_mem hfa))
                have hpre2' : navEntriesOK b
                    (nodeHrefValues (XmlNode.mk nm cattrs cct cch) ++ H)
                    (TOC.Children (TOC.mk
                      (goTrimSpace (XmlNode.nodeText (XmlNode.mk nm cattrs cct cch)))
                      (resolveRelative b v0) ech)) := by
                  have hech : TOC.Children (TOC.mk et eh ech) = ech := rfl
                  refine navEntriesOK_mono hlift ?_
                  simpa [TOC.Children] using hpre2
                obtain ⟨hp1, hp2⟩ := ih3 cs' _ hscs
                  (nodeHrefValues (XmlNode.mk nm cattrs cct cch) ++ H) hpre1' hpre2'
                exact ⟨hrefOK_mono hshuffle hp1, navEntriesOK_mono hshuffle hp2⟩
              | none =>
                have hstep : parseLiChildren b
                    (XmlNode.mk nm cattrs cct cch :: cs') (TOC.mk et eh ech) =
                    parseLiChildren b cs'
                      (TOC.mk (goTrimSpace (XmlNode.nodeText (XmlNode.mk nm cattrs cct cch)))
                        eh ech) := by
                  simp [parseLiChildren, ha, hfa]
                rw [hstep]
                have hpre1' : hrefOK b
                    (nodeHrefValues (XmlNode.mk nm cattrs cct cch) ++ H)
                    (TOC.Href (TOC.mk
                      (goTrimSpace (XmlNode.nodeText (XmlNode.mk nm cattrs cct cch)))
                      eh ech)) := by
                  refine hrefOK_mono hlift ?_
                  simpa [TOC.Href] using hpre1
                have hpre2' : navEntriesOK b
                    (nodeHrefValues (XmlNode.mk nm cattrs cct cch) ++ H)
                    (TOC.Children (TOC.mk
                      (goTrimSpace (XmlNode.nodeText (XmlNode.mk nm cattrs cct cch)))
                      eh ech)) := by
                  refine navEntriesOK_mono hlift ?_
                  simpa [TOC.Children] using hpre2
                obtain ⟨hp1, hp2⟩ := ih3 cs' _ hscs
                  (nodeHrefValues (XmlNode.mk nm cattrs cct cch) ++ H) hpre1' hpre2'
                exact ⟨hrefOK_mono hshuffle hp1, navEntriesOK_mono hshuffle hp2⟩
            · by_cases hol : nm.localName = "ol"
              · have hstep : parseLiChildren b
                    (XmlNode.mk nm cattrs cct cch :: cs') (TOC.mk et eh ech) =
                    parseLiChildren b cs'
                      (TOC.mk et eh
                        (parseList b (XmlNode.mk nm cattrs cct cch))) := by
                  simp [parseLiChildren, ha, hol]
                rw [hstep]
                have hpre1' : hrefOK b
                    (nodeHrefValues (XmlNode.mk nm cattrs cct cch) ++ H)
                    (TOC.Href (TOC.mk et eh
                      (parseList b (XmlNode.mk nm cattrs cct cch)))) := by
                  refine hrefOK_mono hlift ?_
                  simpa [TOC.Href] using hpre1
                have hpre2' : navEntriesOK b
                    (nodeHrefValues (XmlNode.mk nm cattrs cct cch) ++ H)
                    (TOC.Children (TOC.mk et eh
                      (parseList b (XmlNode.mk nm cattrs cct cch)))) := by
                  have hsub := ih1 (XmlNode.mk nm cattrs cct cch) hsc
                  show navEntriesOK b _ (parseList b (XmlNode.mk nm cattrs cct cch))
                  refine navEntriesOK_mono ?_ hsub
                  intro v hv
                  simp only [List.mem_append]
                  exact Or.inl hv
                obtain ⟨hp1, hp2⟩ := ih3 cs' _ hscs
                  (nodeHrefValues (XmlNode.mk nm cattrs cct cch) ++ H) hpre1' hpre2'
                exact ⟨hrefOK_mono hshuffle hp1, navEntriesOK_mono hshuffle hp2⟩
              · have hstep : parseLiChildren b
                    (XmlNode.mk nm cattrs cct cch :: cs') (TOC.mk et eh ech) =
                    parseLiChildren b cs' (TOC.mk et eh ech) := by
                  simp [parseLiChildren, ha, hol]
                rw [hstep]
                have hpre1' : hrefOK b
                    (nodeHrefValues (XmlNode.mk nm cattrs cct cch) ++ H)
                    (TOC.Href (TOC.mk et eh ech)) := hrefOK_mono hlift hpre1
                have hpre2' : navEntriesOK b
                    (nodeHrefValues (XmlNode.mk nm cattrs cct cch) ++ H)
                    (TOC.Children (TOC.mk et eh ech)) := navEntriesOK_mono hlift hpre2
                obtain ⟨hp1, hp2⟩ := ih3 cs' _ hscs
                  (nodeHrefValues (XmlNode.mk nm cattrs cct cch) ++ H) hpre1' hpre2'
                exact ⟨hrefOK_mono hshuffle hp1, navEntriesOK_mono hshuffle hp2⟩

/-- A concrete NCX document: one navPoint labelled "Chapter 1" whose
content src is `ch1.xhtml`. -/
def ncxExampleTree : XmlNode :=
  XmlNode.mk ⟨"", "ncx"⟩ [] "" [
    XmlNode.mk ⟨"", "navMap"⟩ [] "" [
      XmlNode.mk ⟨"", "navPoint"⟩ [] "" [
        XmlNode.mk ⟨"", "navLabel"⟩ [] "" [XmlNode.mk ⟨"", "text"⟩ [] "Chapter 1" []],
        XmlNode.mk ⟨"", "content"⟩ [⟨⟨"", "src"⟩, "ch1.xhtml"⟩] "" []]]]

/-- Counterexample to C1: with the package document directory `OEBPS` and
the TOC file at `OEBPS/toc/toc.ncx` — whose own containing directory is
`OEBPS/toc`, a directory different from the package document's — the
entry for src `ch1.xhtml` comes out as `OEBPS/ch1.xhtml`, the resolution
against the package document's directory, and not `OEBPS/toc/ch1.xhtml`,
the resolution against the TOC file's own directory that the claim
requires. -/
theorem parseTOC_toc_dir_counterexample :
    ParseTOCModel TOCTypeEPUB2 "toc/toc.ncx" "OEBPS" ["OEBPS/toc/toc.ncx"] ncxExampleTree =
      Except.ok [TOC.mk "Chapter 1" "OEBPS/ch1.xhtml" []] ∧
    pathDir (pathJoin "OEBPS" "toc/toc.ncx") = "OEBPS/toc" ∧
    resolveRelative (pathDir (pathJoin "OEBPS" "toc/toc.ncx")) "ch1.xhtml" =
      "OEBPS/toc/ch1.xhtml" ∧
    "OEBPS/ch1.xhtml" ≠ "OEBPS/toc/ch1.xhtml" := by
  refine ⟨?_, by decide, by decide, by decide⟩
  have hc : (["OEBPS/toc/toc.ncx"] : List String).contains
      (pathJoin "OEBPS" "toc/toc.ncx") = true := by decide
  have hj : pathJoin "OEBPS" "toc/toc.ncx" = "OEBPS/toc/toc.ncx" := by decide
  have hf1 : goEqualFold "ncx" "navMap" = false := by decide
  have hf2 : goEqualFold "navMap" "navMap" = true := by decide
  have e1 : goTrimSpace "" = "" := by decide
  have e2 : goTrimSpace "Chapter 1" = "Chapter 1" := by decide
  have e3 : resolveRelative "OEBPS" (goTrimSpace "ch1.xhtml") = "OEBPS/ch1.xhtml" := by
    decide
  have e4 : pathClean "OEBPS/ch1.xhtml" = "OEBPS/ch1.xhtml" := by decide
  simp [ParseTOCModel, hc, TOCTypeEPUB2, TOCTypeEPUB3, parseNCXTree, XmlNode.findNode,
    findNodeChildren, XmlNode.xmlNodes, parseNavPoints, navPointInfoLoop, contentSrcLoop,
    XmlNode.nodeText, nodeTextChildren, goJoinWith, hj, hf1, hf2, e1, e2, e3, e4,
    ncxExampleTree]

/-- C1 (amended): for every TOC document parsed via `ParseTOC`, hrefs are
resolved relative to the package document's directory — the `opfDir`
argument — and not relative to the TOC file's own containing directory.
Precisely: (i) once the archive lookup succeeds, `ParseTOC` hands
`opfDir` to the format parser, and its result is independent of where the
TOC file itself lives; (ii) every produced NCX entry's href is the raw
`src` value of the document, trimmed, resolved against `opfDir` (and then
cleaned), or the clean of the empty string when no src was seen;
(iii) every produced Navigation Document entry's href is a raw `href`
value resolved against `opfDir`, or the empty string when no `a` carried
an href. -/
theorem parseTOC_resolves_against_package_dir :
    ∀ (tocFile tocFile' opfDir : String) (files files' : List String) (tree : XmlNode),
      files.contains (pathJoin opfDir tocFile) = true →
      files'.contains (pathJoin opfDir tocFile') = true →
      (ParseTOCModel TOCTypeEPUB2 tocFile opfDir files tree = parseNCXTree tree opfDir ∧
       ParseTOCModel TOCTypeEPUB3 tocFile opfDir files tree = parseNavTree tree opfDir) ∧
      (ParseTOCModel TOCTypeEPUB2 tocFile opfDir files tree =
         ParseTOCModel TOCTypeEPUB2 tocFile' opfDir files' tree ∧
       ParseTOCModel TOCTypeEPUB3 tocFile opfDir files tree =
         ParseTOCModel TOCTypeEPUB3 tocFile' opfDir files' tree) ∧
      (∀ entries,
        ParseTOCModel TOCTypeEPUB2 tocFile opfDir files tree = Except.ok entries →
        ∃ navMap, XmlNode.findNode "navMap" tree = some navMap ∧
          ∀ t ∈ flattenList entries,
            TOC.Href t = pathClean "" ∨
            ∃ v ∈ forestSrcValues navMap.xmlNodes,
              TOC.Href t = pathClean (resolveRelative opfDir (goTrimSpace v))) ∧
      (∀ entries,
        ParseTOCModel TOCTypeEPUB3 tocFile opfDir files tree = Except.ok entries →
        ∃ nav ol, findNav tree = some nav ∧ XmlNode.findNode "ol" nav = some ol ∧
          ∀ t ∈ flattenList entries,
            TOC.Href t = "" ∨
            ∃ v ∈ nodeHrefValues ol, TOC.Href t = resolveRelative opfDir v) := by
  intro tocFile tocFile' opfDir files files' tree h1 h2
  have h1m : pathJoin opfDir tocFile ∈ files := by simpa using h1
  have h2m : pathJoin opfDir tocFile' ∈ files' := by simpa using h2
  have hd2 : ParseTOCModel TOCTypeEPUB2 tocFile opfDir files tree =
      parseNCXTree tree opfDir := by
    simp [ParseTOCModel, h1m, TOCTypeEPUB2, TOCTypeEPUB3]
  have hd3 : ParseTOCModel TOCTypeEPUB3 tocFile opfDir files tree =
      parseNavTree tree opfDir := by
    simp [ParseTOCModel, h1m, TOCTypeEPUB3]
  have hd2' : ParseTOCModel TOCTypeEPUB2 tocFile' opfDir files' tree =
      parseNCXTree tree opfDir := by
    simp [ParseTOCModel, h2m, TOCTypeEPUB2, TOCTypeEPUB3]
  have hd3' : ParseTOCModel TOCTypeEPUB3 tocFile' opfDir files' tree =
      parseNavTree tree opfDir := by
    simp [ParseTOCModel, h2m, TOCTypeEPUB3]
  refine ⟨⟨hd2, hd3⟩, ⟨hd2.trans hd2'.symm, hd3.trans hd3'.symm⟩, ?_, ?_⟩
  · intro entries hok
    rw [hd2] at hok
    cases hnm : XmlNode.findNode "navMap" tree with
    | none => simp [parseNCXTree, hnm] at hok
    | some navMap =>
      refine ⟨navMap, rfl, ?_⟩
      have hentries : entries = parseNavPoints opfDir navMap.xmlNodes := by
        simp only [parseNCXTree, hnm] at hok
        exact (Except.ok.inj hok).symm
      rw [hentries]
      exact parseNavPoints_href_origin opfDir navMap.xmlNodes
  · intro entries hok
    rw [hd3] at hok
    cases hnav : findNav tree with
    | none => simp [parseNavTree, hnav] at hok
    | some nav =>
      cases hol : XmlNode.findNode "ol" nav with
      | none => simp [parseNavTree, hnav, hol] at hok
      | some ol =>
        refine ⟨nav, ol, rfl, hol, ?_⟩
        have hentries : entries = parseList opfDir ol := by
          simp only [parseNavTree, hnav, hol] at hok
          exact (Except.ok.inj hok).symm
        rw [hentries]
        exact (parseNav_origin_bounded (sizeOf ol + 1) opfDir).1 ol (by omega)

/-- Witness for the amended C1: at the concrete inputs of the
counterexample setting, `ParseTOC` in EPUB2 mode equals the NCX parser
called with the package document's directory `OEBPS` as base, no matter
that the TOC file sits in `OEBPS/toc`. -/
theorem parseTOC_resolves_against_package_dir_witness :
    ParseTOCModel TOCTypeEPUB2 "toc/toc.ncx" "OEBPS" ["OEBPS/toc/toc.ncx"]
        (XmlNode.mk ⟨"", "ncx"⟩ [] "" []) =
      parseNCXTree (XmlNode.mk ⟨"", "ncx"⟩ [] "" []) "OEBPS" :=
  ((parseTOC_resolves_against_package_dir "toc/toc.ncx" "other.ncx" "OEBPS"
      ["OEBPS/toc/toc.ncx"] ["OEBPS/other.ncx"]
      (XmlNode.mk ⟨"", "ncx"⟩ [] "" []) (by decide) (by decide)).1).1

/-- Counterexample to C6: the container descriptor, the NCX and the
Navigation Document are decoded by `ParseXML`, which installs no
`CharsetReader`; on that path a declared `us-ascii` encoding is not
accepted — the decode fails with the stdlib nil-CharsetReader error —
and a declared `iso-8859-1` likewise fails with that stdlib error, not
with the unsupported-charset error the claim names. -/
theorem parseXML_usascii_rejected_counterexample :
    parseXMLEncodingGate "us-ascii" =
      Except.error ("xml: encoding \"us-ascii\" declared but Decoder.CharsetReader is nil") ∧
    parseXMLEncodingGate "us-ascii" ≠ Except.ok () ∧
    parseXMLEncodingGate "iso-8859-1" ≠
      Except.error ("unsupported charset: " ++ "iso-8859-1") := by
  refine ⟨?_, ?_, ?_⟩
  · have h : ("xml: encoding \"" ++ "us-ascii" ++
        "\" declared but Decoder.CharsetReader is nil") =
        "xml: encoding \"us-ascii\" declared but Decoder.CharsetReader is nil" := by decide
    simp [parseXMLEncodingGate, xmlDeclaredEncodingGate, h]
  · intro h
    simp [parseXMLEncodingGate, xmlDeclaredEncodingGate] at h
  · intro h
    have hne : ("xml: encoding \"" ++ "iso-8859-1" ++
        "\" declared but Decoder.CharsetReader is nil") ≠
        ("unsupported charset: " ++ "iso-8859-1") := by decide
    simp [parseXMLEncodingGate, xmlDeclaredEncodingGate, hne] at h

/-- C6 (amended): the two decode paths of the core differ.  The package
document is decoded through `xmlNewDecoder`, whose `charsetReader` hook
makes a declared encoding of UTF-8 or US-ASCII (case-insensitively, or
none) accepted and every other declared charset fail with the
unsupported-charset error.  The container descriptor, the NCX and the
Navigation Document are decoded by `ParseXML` with no `CharsetReader`:
there only a missing declaration or a standard UTF-8 spelling is
accepted, and any other declared charset — US-ASCII included — fails
with the stdlib nil-CharsetReader error. -/
theorem charset_gates_by_decoder :
    ∀ enc : String,
      (xmlNewDecoderEncodingGate enc = Except.ok () ↔
        goToLower enc = "" ∨ goToLower enc = "utf-8" ∨ goToLower enc = "us-ascii") ∧
      (¬(goToLower enc = "" ∨ goToLower enc = "utf-8" ∨ goToLower enc = "us-ascii") →
        xmlNewDecoderEncodingGate enc = Except.error ("unsupported charset: " ++ enc)) ∧
      (parseXMLEncodingGate enc = Except.ok () ↔
        enc = "" ∨ enc = "utf-8" ∨ enc = "UTF-8") ∧
      (¬(enc = "" ∨ enc = "utf-8" ∨ enc = "UTF-8") →
        parseXMLEncodingGate enc =
          Except.error ("xml: encoding \"" ++ enc ++
            "\" declared but Decoder.CharsetReader is nil")) := by
  intro enc
  by_cases hb : enc = "" ∨ enc = "utf-8" ∨ enc = "UTF-8"
  · have hok1 : xmlNewDecoderEncodingGate enc = Except.ok () := by
      rcases hb with rfl | rfl | rfl <;> rfl
    have hok2 : parseXMLEncodingGate enc = Except.ok () := by
      rcases hb with rfl | rfl | rfl <;> rfl
    have hrhs : goToLower enc = "" ∨ goToLower enc = "utf-8" ∨
        goToLower enc = "us-ascii" := by
      rcases hb with rfl | rfl | rfl
      · exact Or.inl (by decide)
      · exact Or.inr (Or.inl (by decide))
      · exact Or.inr (Or.inl (by decide))
    exact ⟨⟨fun _ => hrhs, fun _ => hok1⟩, fun hn => absurd hrhs hn,
      ⟨fun _ => hb, fun _ => hok2⟩, fun hn => absurd hb hn⟩
  · push_neg at hb
    obtain ⟨h1, h2, h3⟩ := hb
    have hhook : xmlNewDecoderEncodingGate enc = charsetReader enc := by
      simp [xmlNewDecoderEncodingGate, xmlDeclaredEncodingGate, h1, h2, h3]
    have hnil : parseXMLEncodingGate enc =
        Except.error ("xml: encoding \"" ++ enc ++
          "\" declared but Decoder.CharsetReader is nil") := by
      simp [parseXMLEncodingGate, xmlDeclaredEncodingGate, h1, h2, h3]
    obtain ⟨hcr1, hcr2⟩ := charsetReader_accepts_iff enc
    refine ⟨?_, ?_, ?_, fun _ => hnil⟩
    · rw [hhook]; exact hcr1
    · intro hn; rw [hhook]; exact hcr2 hn
    · rw [hnil]
      constructor
      · intro h; simp at h
      · intro h
        rcases h with h | h | h
        · exact absurd h h1
        · exact absurd h h2
        · exact absurd h h3

/-- Witness for the amended C6: on the package-document path "US-ASCII"
is accepted and "UTF-16" fails with the unsupported-charset error; on
the `ParseXML` path a missing declaration is accepted. -/
theorem charset_gates_by_decoder_witness :
    xmlNewDecoderEncodingGate "US-ASCII" = Except.ok () ∧
    xmlNewDecoderEncodingGate "UTF-16" =
      Except.error ("unsupported charset: " ++ "UTF-16") ∧
    parseXMLEncodingGate "" = Except.ok () := by
  refine ⟨?_, ?_, ?_⟩
  · exact (charset_gates_by_decoder "US-ASCII").1.mpr (by decide)
  · exact (charset_gates_by_decoder "UTF-16").2.1 (by decide)
  · exact (charset_gates_by_decoder "").2.2.1.mpr (by decide)
